import Mathlib

/-!
Generic collection utilities of `misc/bootools.go`.

A shallow embedding of the reflection based slice helpers (`GetMap`, `Unique`,
`GetFieldSlice`, `FilterByDates`) and of the date-set helpers
(`GetUniqueDates`, `GetUniqueDatesMap`, `DateSetUnion`, `DateSetDiff`),
followed by theorems about them.

Modelling choices:
* a Go `map[K]V` is an association list with at most one entry per key
  (`GoMap`); the iteration order of a Go map is unspecified, so `MapKeys`
  takes the order as a parameter;
* an argument of static type `interface{}` is a `Data`: either a slice or
  something else;
* `time.Time` is the triple (instant, monotonic reading, location pointer),
  which is what Go's `==` on `time.Time` compares;
* an element of a slice seen through `reflect` is a struct value with named fields,
  each exported or not, or a value of another kind (`Record`);
* a call of the code ends in a value, a returned `TError`, or a run-time panic.
-/

namespace BooTools

/-! ## Errors (`misc/terror.go`) -/

/-- The `TErrorCode` string enum; only the code used by the slice helpers is needed. -/
abbrev TErrorCode := String

/-- The constant `ErrGeneric`. -/
def ErrGeneric : TErrorCode := "somthing has gone south"

/-- The struct `TError`; the wrapped Go `error` is kept as its message, `none` is `nil`. -/
structure TError where
  Msg : String
  Origin : String
  Code : TErrorCode
  Err : Option String
deriving DecidableEq, Repr

/-- How a call of a function with result type `(T, error)` can end. -/
inductive Result (α : Type) where
  | ok (val : α)
  | err (e : TError)
  | panic (msg : String)
deriving DecidableEq, Repr

/-- The call returned a non-nil `error`. -/
def Result.isErr {α : Type} : Result α → Bool
  | .err _ => true
  | _ => false

/-- The call returned a value and a nil `error`. -/
def Result.isOk {α : Type} : Result α → Bool
  | .ok _ => true
  | _ => false

/-! ## Go maps -/

/-- A Go map: the list of its entries, in insertion order. -/
abbrev GoMap (K V : Type) := List (K × V)

namespace GoMap

variable {K V : Type} [DecidableEq K]

/-- The result of `make(map[K]V)`. -/
def empty : GoMap K V := []

/-- The comma-ok lookup `v, ok := m[k]`. -/
def get? : GoMap K V → K → Option V
  | [], _ => none
  | (k', v) :: m, k => if k' = k then some v else get? m k

/-- The assignment `m[k] = v`. -/
def set : GoMap K V → K → V → GoMap K V
  | [], k, v => [(k, v)]
  | (k', v') :: m, k, v => if k' = k then (k, v) :: m else (k', v') :: set m k v

/-- The keys of the map, in insertion order. -/
def keys (m : GoMap K V) : List K := m.map Prod.fst

/-- The values of the map, in insertion order of their keys. -/
def values (m : GoMap K V) : List V := m.map Prod.snd

end GoMap

/-- An argument passed as `interface{}`: a slice of `α`, or a value of another kind. -/
inductive Data (α : Type) where
  | other
  | slice (vals : List α)
deriving DecidableEq, Repr

/-! ## Timestamps (`time.Time`) -/

/-- A `time.Duration`, in nanoseconds. -/
abbrev Duration := Int

/-- The constant `time.Hour`. -/
def Hour : Duration := 3600 * 1000000000

/-- A `time.Time`: nanoseconds since the zero time (January 1, year 1, 00:00 UTC),
the optional monotonic clock reading, and the location pointer (`none` is UTC). -/
structure Time where
  nsec : Int
  mono : Option Int
  loc : Option Nat
deriving DecidableEq, Repr

/-- The method `stripMono`. -/
def Time.stripMono (t : Time) : Time := { t with mono := none }

/-- The method `Truncate`: round down to a multiple of `d` since the zero time. -/
def Time.Truncate (t : Time) (d : Duration) : Time :=
  let t := t.stripMono
  if d ≤ 0 then t else { t with nsec := t.nsec - t.nsec % d }

/-- The method `UTC`: the same instant with the location set to UTC. -/
def Time.UTC (t : Time) : Time := { t.stripMono with loc := none }

/-! ## Date-set helpers -/

/-- The function `GetUniqueDates`; the state is `(uniques, uniquesMap)`. -/
def GetUniqueDates (input : List Time) : List Time :=
  (input.foldl
    (fun (st : List Time × GoMap Time Bool) t =>
      let d := t.Truncate (24 * Hour)
      match st.2.get? d with
      | none => (st.1 ++ [d], st.2.set d true)
      | some _ => st)
    ([], GoMap.empty)).1

/-- The function `GetUniqueDatesMap`; a missing key reads as the zero value `0`. -/
def GetUniqueDatesMap (timelist : List Time) : GoMap Time Int :=
  timelist.foldl
    (fun (uniques : GoMap Time Int) t =>
      let d := t.Truncate (24 * Hour)
      match uniques.get? d with
      | none => uniques.set d ((uniques.get? d).getD 0 + 1)
      | some _ => uniques.set d 1)
    GoMap.empty

/-- The function `DateSetUnion`; the state is `(union, unionMap)`. -/
def DateSetUnion (setA setB : List Time) : List Time :=
  let setBMap := GetUniqueDatesMap setB
  (setA.foldl
    (fun (st : List Time × GoMap Time Bool) a =>
      let aDate := a.Truncate (24 * Hour)
      match setBMap.get? aDate with
      | some _ =>
        match st.2.get? aDate with
        | none => (st.1 ++ [aDate], st.2.set aDate true)
        | some _ => st
      | none => st)
    ([], GoMap.empty)).1

/-- The function `DateSetDiff`; the state is `(diff, diffMap)`. -/
def DateSetDiff (setA setB : List Time) : List Time :=
  let setBMap := GetUniqueDatesMap setB
  (setA.foldl
    (fun (st : List Time × GoMap Time Bool) a =>
      let aDate := a.Truncate (24 * Hour)
      match setBMap.get? aDate with
      | none =>
        match st.2.get? aDate with
        | none => (st.1 ++ [aDate], st.2.set aDate true)
        | some _ => st
      | some _ => st)
    ([], GoMap.empty)).1

/-! ## Frequency map and distinct values -/

/-- One iteration of the counting loop of `GetMap`. -/
def GetMap.step {α : Type} [DecidableEq α] (freqMap : GoMap α Nat) (x : α) : GoMap α Nat :=
  match freqMap.get? x with
  | some c => freqMap.set x (c + 1)
  | none => freqMap.set x 1

/-- The function `GetMap`. Counts are Go `int`s; they are bounded by the slice length. -/
def GetMap {α : Type} [DecidableEq α] (data : Data α) : Result (GoMap α Nat) :=
  match data with
  | .slice vals =>
    if vals.length = 0 then
      .err { Msg := "data is not a slice or has zero length", Origin := "GetMap",
             Code := ErrGeneric, Err := none }
    else
      .ok (vals.foldl GetMap.step GoMap.empty)
  | .other =>
    .err { Msg := "data is not a slice or has zero length", Origin := "GetMap",
           Code := ErrGeneric, Err := none }

/-- The method `reflect.Value.MapKeys`: all keys, in the unspecified order `order`. -/
def MapKeys {α V : Type} (order : List α → List α) (m : GoMap α V) : List α :=
  order (GoMap.keys m)

/-- The copy loop of `Unique`: `uniques.Index(i).Set(elem)` for the `i`-th key. -/
def Unique.fill {α : Type} : Nat → List α → List α → List α
  | _, [], uniques => uniques
  | i, elem :: rest, uniques => Unique.fill (i + 1) rest (uniques.set i elem)

/-- The function `Unique`; `zero` is the zero value of the element type, with which
`reflect.MakeSlice` fills the new slice. -/
def Unique {α : Type} [DecidableEq α] (order : List α → List α) (zero : α) (data : Data α) :
    Result (List α) :=
  match data with
  | .slice vals =>
    if vals.length = 0 then
      .err { Msg := "data is not a slice or has zero length", Origin := "Unique",
             Code := ErrGeneric, Err := none }
    else
      match GetMap data with
      | .ok freqMap =>
        let uniques := List.replicate freqMap.length zero
        .ok (Unique.fill 0 (MapKeys order freqMap) uniques)
      | _ =>
        .err { Msg := "failed to get a map of unique values", Origin := "Unique",
               Code := ErrGeneric, Err := none }
  | .other =>
    .err { Msg := "data is not a slice or has zero length", Origin := "Unique",
           Code := ErrGeneric, Err := none }

/-! ## Records and field access by name -/

/-- The dynamic types of the values below. -/
inductive Ty where
  | bool
  | int
  | string
  | time
deriving DecidableEq, Repr

/-- A value held in an `interface{}`: `nil` or a value of one of the types `Ty`. -/
inductive Value where
  | nil
  | bool (b : Bool)
  | int (n : Int)
  | str (s : String)
  | time (t : Time)
deriving DecidableEq, Repr

/-- The function `reflect.TypeOf`; it is `nil` for the nil interface. -/
def Value.TypeOf : Value → Option Ty
  | .nil => none
  | .bool _ => some .bool
  | .int _ => some .int
  | .str _ => some .string
  | .time _ => some .time

/-- The zero value with which `reflect.MakeSlice` fills a slice of the given element type. -/
def zeroValue : Option Ty → Value
  | none => .nil
  | some .bool => .bool false
  | some .int => .int 0
  | some .string => .str ""
  | some .time => .time { nsec := 0, mono := none, loc := none }

/-- A field of a struct value as `reflect` sees it: its name, whether it is exported
(its name begins with an upper-case letter, so `reflect` hands out its value), and
its value. -/
structure StructField where
  Name : String
  Exported : Bool
  Val : Value
deriving DecidableEq, Repr

/-- An element of the input slice as `reflect` sees it: a struct value with its
fields, or a value of another kind (a pointer, an interface, a scalar). -/
inductive Record where
  | struct (fields : List StructField)
  | other
deriving DecidableEq, Repr

/-- The value is of kind `reflect.Struct`. -/
def Record.isStruct : Record → Bool
  | .struct _ => true
  | .other => false

/-- The field named `field` of a struct value, if there is one. -/
def Record.field? (rec : Record) (field : String) : Option StructField :=
  match rec with
  | .struct fields => fields.find? (fun sf => decide (sf.Name = field))
  | .other => none

/-- The value of `reflect.Value.FieldByName` on a struct value; `none` is the invalid
(zero) `reflect.Value`. On a value that is not a struct the method panics: the
callers test `Record.isStruct` first. -/
def FieldByName (rec : Record) (field : String) : Option Value :=
  (rec.field? field).map (fun sf => sf.Val)

/-- The value obtained by `FieldByName` is not read-only: the field is exported. -/
def fieldExported (rec : Record) (field : String) : Bool :=
  match rec.field? field with
  | some sf => sf.Exported
  | none => false

/-- The expression `vals.Index(i).FieldByName(field)` consumed by the method `op`
(`Interface`, or `Set` as its argument): the field's value, or the message of the
panic raised when the element is not a struct, the field does not exist, or the
field is unexported. -/
def readField (op : String) (rec : Record) (field : String) : Except String Value :=
  if rec.isStruct then
    match FieldByName rec field with
    | none => .error ("reflect: call of reflect.Value." ++ op ++ " on zero Value")
    | some v =>
      if fieldExported rec field then .ok v
      else .error ("reflect.Value." ++ op ++ ": value obtained using unexported field")
  else .error "reflect: call of reflect.Value.FieldByName on a value that is not a struct"

/-- A user callback of type `func(interface{}) (T, error)`. -/
abbrev Callback (τ : Type) := Value → Except String τ

/-- A result together with the arguments the callback was invoked with, in order. -/
structure Run (α : Type) where
  calls : List Value
  result : Result α
deriving DecidableEq, Repr

/-- The main loop of `GetFieldSlice`, from index `i` on, over the remaining elements. -/
def GetFieldSlice.loop (field : String) (transform : Option (Callback Value))
    (outType : Option Ty) :
    Nat → List Record → List Value → List Value → Run (List Value)
  | _, [], outSlice, calls => ⟨calls, .ok outSlice⟩
  | i, rec :: rest, outSlice, calls =>
    match transform with
    | some tr =>
      match readField "Interface" rec field with
      | .error msg => ⟨calls, .panic msg⟩
      | .ok v =>
        match tr v with
        | .error e =>
          ⟨calls ++ [v], .err { Msg := "custom transformation failed",
                                Origin := "GetFieldSlice", Code := ErrGeneric, Err := some e }⟩
        | .ok tmpOut =>
          if tmpOut.TypeOf ≠ none ∧ tmpOut.TypeOf = outType then
            GetFieldSlice.loop field transform outType (i + 1) rest (outSlice.set i tmpOut)
              (calls ++ [v])
          else
            ⟨calls ++ [v], .panic "reflect.Set: value is not assignable to the element type"⟩
    | none =>
      match readField "Set" rec field with
      | .error msg => ⟨calls, .panic msg⟩
      | .ok v =>
        GetFieldSlice.loop field transform outType (i + 1) rest (outSlice.set i v) calls

/-- The function `GetFieldSlice`. -/
def GetFieldSlice (data : Data Record) (field : String)
    (transform : Option (Callback Value)) : Run (List Value) :=
  match data with
  | .slice vals =>
    match vals with
    | [] =>
      ⟨[], .err { Msg := "data is not a slice or has zero length", Origin := "GetFieldSlice",
                  Code := ErrGeneric, Err := none }⟩
    | first :: _ =>
      if first.isStruct then
        match FieldByName first field with
        | none =>
          ⟨[], .err { Msg := "custom transformation failed, field [" ++ field ++ "] not found",
                      Origin := "GetFieldSlice", Code := ErrGeneric, Err := none }⟩
        | some v0 =>
          match transform with
          | some tr =>
            if fieldExported first field then
              match tr v0 with
              | .error e =>
                ⟨[v0], .err { Msg := "custom transformation failed", Origin := "GetFieldSlice",
                              Code := ErrGeneric, Err := some e }⟩
              | .ok tmp =>
                match tmp.TypeOf with
                | none => ⟨[v0], .panic "reflect.SliceOf: nil type"⟩
                | some outType =>
                  GetFieldSlice.loop field transform (some outType) 0 vals
                    (List.replicate vals.length (zeroValue (some outType))) [v0]
            else
              ⟨[], .panic "reflect.Value.Interface: value obtained using unexported field"⟩
          | none =>
            GetFieldSlice.loop field transform v0.TypeOf 0 vals
              (List.replicate vals.length (zeroValue v0.TypeOf)) []
      else
        ⟨[], .panic "reflect: call of reflect.Value.FieldByName on a value that is not a struct"⟩
  | .other =>
    ⟨[], .err { Msg := "data is not a slice or has zero length", Origin := "GetFieldSlice",
                Code := ErrGeneric, Err := none }⟩

/-- The main loop of `FilterByDates`, from index `i` on, over the remaining elements. -/
def FilterByDates.loop (field : String) (dateMap : GoMap Time Int)
    (toTime : Option (Callback Time)) :
    Nat → List Record → List Record → Result (List Record)
  | _, [], outData => .ok outData
  | i, rec :: rest, outData =>
    match readField "Interface" rec field with
    | .error msg => .panic msg
    | .ok v =>
      let conv : Result Time :=
        match toTime with
        | some f =>
          match f v with
          | .error _ =>
            .err { Msg := "could not cast data[" ++ toString i ++ "]." ++ field ++
                     " to timestamp with custom function",
                   Origin := "FilterDates", Code := ErrGeneric, Err := none }
          | .ok t => .ok t
        | none =>
          match v with
          | .time t => .ok t
          | _ =>
            .err { Msg := "could not cast data[" ++ toString i ++ "]." ++ field ++
                     " to timestamp",
                   Origin := "FilterDates", Code := ErrGeneric, Err := none }
      match conv with
      | .ok t =>
        match dateMap.get? (t.UTC.Truncate (24 * Hour)) with
        | some _ => FilterByDates.loop field dateMap toTime (i + 1) rest (outData ++ [rec])
        | none => FilterByDates.loop field dateMap toTime (i + 1) rest outData
      | .err e => .err e
      | .panic msg => .panic msg

/-- The function `FilterByDates`. -/
def FilterByDates (data : Data Record) (field : String) (dates : List Time)
    (toTime : Option (Callback Time)) : Result (List Record) :=
  match data with
  | .slice vals =>
    if vals.length = 0 then
      .err { Msg := "data is not a slice or has zero length", Origin := "FilterDates",
             Code := ErrGeneric, Err := none }
    else
      FilterByDates.loop field (GetUniqueDatesMap dates) toTime 0 vals []
  | .other =>
    .err { Msg := "data is not a slice or has zero length", Origin := "FilterDates",
           Code := ErrGeneric, Err := none }

/-! ## Schema comparison (`gbq/bq_utils.go`) -/

/-- The fields of `bigquery.FieldSchema` that `SchemasMatch` reads: `Name` and `Type`
(here `FieldType`, as `Type` is reserved); `bigquery.FieldType` is a string type.
A `bigquery.Schema` holds pointers to such structs, taken to be non-nil here. -/
structure FieldSchema where
  Name : String
  FieldType : String
deriving DecidableEq, Repr

/-- The type `bigquery.Schema`. -/
abbrev Schema := List FieldSchema

/-- The loop of `SchemasMatch` from index `i` on, over the remaining elements of `s1`;
`Except.error` is the run-time panic of an index out of range. -/
def SchemasMatch.loop (s2 : Schema) : Nat → List FieldSchema → Except String Bool
  | _, [] => .ok true
  | i, f1 :: rest =>
    match s2[i]? with
    | none => .error "runtime error: index out of range"
    | some f2 =>
      if f1.Name ≠ f2.Name ∨ f1.FieldType ≠ f2.FieldType then .ok false
      else SchemasMatch.loop s2 (i + 1) rest

/-- The function `SchemasMatch`. -/
def SchemasMatch (s1 s2 : Schema) : Except String Bool :=
  SchemasMatch.loop s2 0 s1

/-! ## Auxiliary definitions used in the statements and proofs -/

/-- The day-truncated value of a timestamp, `t.Truncate(24*time.Hour)`. -/
def dayOf (t : Time) : Time := t.Truncate (24 * Hour)

/-- Append `d` to `u` unless it is already there. -/
def addNew {α : Type} [DecidableEq α] (u : List α) (d : α) : List α :=
  if d ∈ u then u else u ++ [d]

/-- The common shape of the loop bodies of `GetUniqueDates`, `DateSetUnion` and
`DateSetDiff`: a day that passes the test `p` is recorded unless already seen. -/
def dedupStep (p : Time → Bool) (st : List Time × GoMap Time Bool) (a : Time) :
    List Time × GoMap Time Bool :=
  if p (dayOf a) then
    match st.2.get? (dayOf a) with
    | none => (st.1 ++ [dayOf a], st.2.set (dayOf a) true)
    | some _ => st
  else st

/-- The elements of `u` are the distinct elements of `P`, in the order of their
first occurrence in `P`. -/
def FirstOccurrences {α : Type} [DecidableEq α] (u P : List α) : Prop :=
  u.Nodup ∧ (∀ d, d ∈ u ↔ d ∈ P) ∧ u.Sublist P ∧
    u.Pairwise (fun a b => P.indexOf a < P.indexOf b)

/-- The value `w` is what `GetFieldSlice` is to store for the record `rec`: the value
of its field `field`, passed through `transform` when one is supplied. -/
def FieldOutput (field : String) (transform : Option (Callback Value)) (rec : Record)
    (w : Value) : Prop :=
  ∃ v, FieldByName rec field = some v ∧
    match transform with
    | none => w = v
    | some tr => tr v = Except.ok w

/-- The records `[{Name:"a",Age:1},{Name:"b",Age:2}]`. -/
def exampleRecords : List Record :=
  [Record.struct [{ Name := "Name", Exported := true, Val := Value.str "a" },
                  { Name := "Age", Exported := true, Val := Value.int 1 }],
   Record.struct [{ Name := "Name", Exported := true, Val := Value.str "b" },
                  { Name := "Age", Exported := true, Val := Value.int 2 }]]

/-- A transform that maps `"a"` to an `int` and every other value to a `string`. -/
def mixedTransform : Callback Value := fun v =>
  if v = Value.str "a" then Except.ok (Value.int 1) else Except.ok (Value.str "x")

/-- A transform that maps `"a"` to an `int`, `"b"` to a `string`, and fails otherwise. -/
def mixedFailingTransform : Callback Value := fun v =>
  if v = Value.str "a" then Except.ok (Value.int 1)
  else if v = Value.str "b" then Except.ok (Value.str "x")
  else Except.error "unexpected value"

/-- A transform that maps a string to its length and fails on every other value. -/
def lengthTransform : Callback Value := fun v =>
  match v with
  | .str s => Except.ok (Value.int s.length)
  | _ => Except.error "not a string"

/-- The timestamp `FilterByDates` reads from a record: the value of the field,
converted by `toTime` when one is supplied and otherwise required to be a
`time.Time`; `none` when the field cannot be read (the element is not a struct,
the field is missing or unexported) or the conversion fails. -/
def fieldTime (field : String) (toTime : Option (Callback Time)) (rec : Record) :
    Option Time :=
  match readField "Interface" rec field with
  | .error _ => none
  | .ok v =>
    match toTime with
    | some f =>
      match f v with
      | .ok t => some t
      | .error _ => none
    | none =>
      match v with
      | .time t => some t
      | _ => none

/-- The record's timestamp, normalised to UTC and truncated to the day, is the
day-truncated value of some element of `dates`. -/
def keepsRecord (field : String) (dates : List Time) (toTime : Option (Callback Time))
    (rec : Record) : Bool :=
  match fieldTime field toTime rec with
  | some t =>
    decide (t.UTC.Truncate (24 * Hour) ∈ dates.map (fun d => d.Truncate (24 * Hour)))
  | none => false

/-- The date 2024-01-01T00:00:00 UTC. -/
def jan1 : Time := { nsec := 63839664000000000000, mono := none, loc := none }

/-- Three records whose field `Name` holds `"a"`, `"b"` and `"c"`. -/
def abcRecords : List Record :=
  [Record.struct [{ Name := "Name", Exported := true, Val := Value.str "a" }],
   Record.struct [{ Name := "Name", Exported := true, Val := Value.str "b" }],
   Record.struct [{ Name := "Name", Exported := true, Val := Value.str "c" }]]

/-- A record with the timestamp field `Ts` set to 2024-01-01T08:00 (UTC). -/
def jan1MorningRecord : Record :=
  Record.struct [{ Name := "Ts", Exported := true,
                   Val := Value.time { nsec := 63839664000000000000 + 8 * 3600000000000,
                                       mono := none, loc := none } }]

/-- Two records with a timestamp field `Ts`: 2024-01-01T08:00 and 2024-01-02T00:00 (UTC). -/
def exampleTimedRecords : List Record :=
  [jan1MorningRecord,
   Record.struct [{ Name := "Ts", Exported := true,
                    Val := Value.time { nsec := 63839664000000000000 + 24 * 3600000000000,
                                        mono := none, loc := none } }]]

/-- Two records whose unexported field `name` holds a string. -/
def unexportedNameRecords : List Record :=
  [Record.struct [{ Name := "name", Exported := false, Val := Value.str "a" }],
   Record.struct [{ Name := "name", Exported := false, Val := Value.str "b" }]]

/-- A record whose unexported field `ts` holds the timestamp 2024-01-01T08:00 (UTC). -/
def unexportedTimeRecord : Record :=
  Record.struct [{ Name := "ts", Exported := false,
                   Val := Value.time { nsec := 63839664000000000000 + 8 * 3600000000000,
                                       mono := none, loc := none } }]

/-- The UTC calendar day of a timestamp, as the number of whole days since the zero
time (January 1, year 1, 00:00 UTC). -/
def utcDay (t : Time) : Int := t.nsec / (24 * Hour)

/-- The instant 2024-01-01T08:00:00 UTC, carried in the location with pointer `1`. -/
def jan1MorningZoned : Time :=
  { nsec := 63839664000000000000 + 8 * 3600000000000, mono := none, loc := some 1 }

/-- The instant 2024-01-01T01:00:00 UTC, carried in the location with pointer `1`. -/
def jan1Zoned : Time :=
  { nsec := 63839664000000000000 + 3600000000000, mono := none, loc := some 1 }

/-- The date 2024-01-02T00:00:00 UTC. -/
def jan2 : Time := { nsec := 63839664000000000000 + 24 * 3600000000000, mono := none, loc := none }

/-- Three timestamps: two of 2024-01-01 and one of 2024-01-02. -/
def datesWithRepeats : List Time :=
  [jan1, { nsec := 63839664000000000000 + 8 * 3600000000000, mono := none, loc := none }, jan2]

/-- Two timestamps: one of 2024-01-02 (06:00) and one of 2024-01-01. -/
def datesOnce : List Time :=
  [{ nsec := 63839664000000000000 + 30 * 3600000000000, mono := none, loc := none }, jan1]

/-! ## Lemmas about Go maps -/

namespace GoMap

variable {K V : Type} [DecidableEq K]

theorem get?_set_self (m : GoMap K V) (k : K) (v : V) : (m.set k v).get? k = some v := by
  induction m with
  | nil => simp [set, get?]
  | cons e m ih =>
    obtain ⟨k', v'⟩ := e
    by_cases h : k' = k
    · simp [set, get?, h]
    · simp [set, get?, h, ih]

theorem get?_set_ne (m : GoMap K V) {k k' : K} (h : k ≠ k') (v : V) :
    (m.set k v).get? k' = m.get? k' := by
  induction m with
  | nil => simp [set, get?, h]
  | cons e m ih =>
    obtain ⟨k0, v0⟩ := e
    by_cases h0 : k0 = k
    · subst h0
      simp [set, get?, h]
    · simp [set, get?, h0, ih]

theorem get?_eq_none_iff (m : GoMap K V) (k : K) : m.get? k = none ↔ k ∉ m.keys := by
  induction m with
  | nil => simp [get?, keys]
  | cons e m ih =>
    obtain ⟨k0, v0⟩ := e
    by_cases h0 : k0 = k
    · simp [get?, keys, h0]
    · have hne : ¬ k = k0 := fun h => h0 h.symm
      simpa [get?, keys, h0, hne] using ih

theorem mem_keys_iff (m : GoMap K V) (k : K) : k ∈ m.keys ↔ ∃ v, m.get? k = some v := by
  rw [← not_iff_not, ← get?_eq_none_iff]
  cases m.get? k <;> simp

theorem keys_set_of_mem (m : GoMap K V) {k : K} (h : k ∈ m.keys) (v : V) :
    (m.set k v).keys = m.keys := by
  induction m with
  | nil => simp [keys] at h
  | cons e m ih =>
    obtain ⟨k0, v0⟩ := e
    by_cases h0 : k0 = k
    · simp [set, keys, h0]
    · have hne : ¬ k = k0 := fun h => h0 h.symm
      have hm : k ∈ keys m := by simpa [keys, hne] using h
      have := ih hm
      simp only [keys] at this
      simp [set, keys, h0, this]

theorem keys_set_of_not_mem (m : GoMap K V) {k : K} (h : k ∉ m.keys) (v : V) :
    (m.set k v).keys = m.keys ++ [k] := by
  induction m with
  | nil => simp [set, keys]
  | cons e m ih =>
    obtain ⟨k0, v0⟩ := e
    have hne : ¬ k0 = k := by
      intro h0
      apply h
      simp [keys, h0]
    have hm : k ∉ keys m := by
      intro hk
      apply h
      simp only [keys] at hk
      simp [keys, hk]
    have := ih hm
    simp only [keys] at this
    simp [set, keys, hne, this]

theorem nodup_keys_set (m : GoMap K V) (k : K) (v : V) (h : m.keys.Nodup) :
    (m.set k v).keys.Nodup := by
  by_cases hk : k ∈ m.keys
  · rw [keys_set_of_mem m hk]
    exact h
  · rw [keys_set_of_not_mem m hk]
    exact List.Nodup.append h (List.nodup_singleton k) (by simpa using hk)

theorem sum_values_set_none (m : GoMap K Nat) {k : K} (h : m.get? k = none) (v : Nat) :
    (m.set k v).values.sum = m.values.sum + v := by
  induction m with
  | nil => simp [set, values]
  | cons e m ih =>
    obtain ⟨k0, v0⟩ := e
    by_cases h0 : k0 = k
    · simp [get?, h0] at h
    · have hm : get? m k = none := by simpa [get?, h0] using h
      have := ih hm
      simp only [values] at this
      simp [set, values, h0, this]
      omega

theorem sum_values_set_some (m : GoMap K Nat) {k : K} {c : Nat} (h : m.get? k = some c)
    (v : Nat) : (m.set k v).values.sum + c = m.values.sum + v := by
  induction m with
  | nil => simp [get?] at h
  | cons e m ih =>
    obtain ⟨k0, v0⟩ := e
    by_cases h0 : k0 = k
    · have hc : v0 = c := by simpa [get?, h0] using h
      simp [set, values, h0, hc]
      omega
    · have hm : get? m k = some c := by simpa [get?, h0] using h
      have := ih hm
      simp only [values] at this
      simp [set, values, h0]
      omega

end GoMap

/-! ## The counting loop of `GetMap` -/

section Counting

variable {α : Type} [DecidableEq α]

theorem GetMap.step_get?_self (m : GoMap α Nat) (x : α) :
    (GetMap.step m x).get? x = some ((m.get? x).getD 0 + 1) := by
  unfold GetMap.step
  cases h : m.get? x <;> simp [GoMap.get?_set_self]

theorem GetMap.step_get?_ne (m : GoMap α Nat) {x v : α} (h : x ≠ v) :
    (GetMap.step m x).get? v = m.get? v := by
  unfold GetMap.step
  cases m.get? x <;> simp [GoMap.get?_set_ne _ h]

/-- The counting loop adds, to the count already stored for `v`, the number of
occurrences of `v` in the elements it runs over. -/
theorem GetMap.foldl_get? (xs : List α) (m : GoMap α Nat) (v : α) :
    (xs.foldl GetMap.step m).get? v =
      if v ∈ xs then some ((m.get? v).getD 0 + xs.count v) else m.get? v := by
  induction xs generalizing m with
  | nil => simp
  | cons x xs ih =>
    rw [List.foldl_cons, ih]
    by_cases hx : x = v
    · subst hx
      rw [GetMap.step_get?_self]
      by_cases hv : x ∈ xs
      · simp [hv]
        omega
      · simp [hv, List.count_eq_zero_of_not_mem hv]
    · have hx' : ¬ v = x := fun h => hx h.symm
      rw [GetMap.step_get?_ne m hx]
      by_cases hv : v ∈ xs
      · simp [hv, List.count_cons, hx]
      · simp [hv, hx']

theorem GetMap.foldl_nodup_keys (xs : List α) (m : GoMap α Nat) (h : m.keys.Nodup) :
    (xs.foldl GetMap.step m).keys.Nodup := by
  induction xs generalizing m with
  | nil => simpa using h
  | cons x xs ih =>
    rw [List.foldl_cons]
    apply ih
    unfold GetMap.step
    cases m.get? x <;> exact GoMap.nodup_keys_set _ _ _ h

theorem GetMap.step_sum (m : GoMap α Nat) (x : α) :
    (GetMap.step m x).values.sum = m.values.sum + 1 := by
  unfold GetMap.step
  cases h : m.get? x with
  | none => exact GoMap.sum_values_set_none m h 1
  | some c =>
    have := GoMap.sum_values_set_some m h (c + 1)
    simp only
    omega

theorem GetMap.foldl_sum (xs : List α) (m : GoMap α Nat) :
    (xs.foldl GetMap.step m).values.sum = m.values.sum + xs.length := by
  induction xs generalizing m with
  | nil => simp
  | cons x xs ih =>
    rw [List.foldl_cons, ih, GetMap.step_sum, List.length_cons]
    omega

theorem GetMap.eq_ok (S : List α) (h : S ≠ []) :
    GetMap (Data.slice S) = Result.ok (S.foldl GetMap.step GoMap.empty) := by
  have : S.length ≠ 0 := by simpa using h
  simp [GetMap, this]

end Counting

/-! ## The copy loop of `Unique` -/

theorem Unique.fill_append {α : Type} (keys pre suf : List α) (h : suf.length = keys.length) :
    Unique.fill pre.length keys (pre ++ suf) = pre ++ keys := by
  induction keys generalizing pre suf with
  | nil =>
    have : suf = [] := List.length_eq_zero.mp (by simpa using h)
    simp [Unique.fill, this]
  | cons k keys ih =>
    cases suf with
    | nil => simp at h
    | cons s suf =>
      have hlen : suf.length = keys.length := by simpa using h
      have hset : (pre ++ s :: suf).set pre.length k = (pre ++ [k]) ++ suf := by
        simp [List.set_append]
      have := ih (pre ++ [k]) suf hlen
      simp only [List.length_append, List.length_singleton] at this
      simp only [Unique.fill, hset, this]
      simp

theorem Unique.fill_replicate {α : Type} (keys : List α) (zero : α) :
    Unique.fill 0 keys (List.replicate keys.length zero) = keys := by
  have := Unique.fill_append keys [] (List.replicate keys.length zero) (by simp)
  simpa using this

/-! ## Frequency map and distinct values: the claims -/

section FrequencyClaims

variable {α : Type} [DecidableEq α]

/-- What the counting loop, started on the empty map, computes. -/
theorem GetMap.foldl_spec (S : List α) :
    (S.foldl GetMap.step GoMap.empty).keys.Nodup ∧
      (∀ v, v ∈ (S.foldl GetMap.step GoMap.empty).keys ↔ v ∈ S) ∧
      (∀ v, v ∈ S → (S.foldl GetMap.step GoMap.empty).get? v = some (S.count v)) ∧
      (∀ v, v ∉ S → (S.foldl GetMap.step GoMap.empty).get? v = none) := by
  refine ⟨?_, ?_, ?_, ?_⟩
  · exact GetMap.foldl_nodup_keys S GoMap.empty (by simp [GoMap.empty, GoMap.keys])
  · intro v
    rw [GoMap.mem_keys_iff, GetMap.foldl_get?]
    by_cases hv : v ∈ S
    · simp [hv]
    · simp [hv, GoMap.empty, GoMap.get?]
  · intro v hv
    rw [GetMap.foldl_get?]
    simp [hv, GoMap.empty, GoMap.get?]
  · intro v hv
    rw [GetMap.foldl_get?]
    simp [hv, GoMap.empty, GoMap.get?]

/-- C1: for every non-empty sequence `S` of equality-comparable values, `GetMap`
succeeds and returns a map that holds each key once, whose keys are exactly the
values occurring in `S`, and whose value at a key `v` is the number of
occurrences of `v` in `S` (and which has no entry for any other value). -/
theorem GetMap_counts (S : List α) (hS : S ≠ []) :
    ∃ m : GoMap α Nat, GetMap (Data.slice S) = Result.ok m ∧
      m.keys.Nodup ∧
      (∀ v, v ∈ m.keys ↔ v ∈ S) ∧
      (∀ v, v ∈ S → m.get? v = some (S.count v)) ∧
      (∀ v, v ∉ S → m.get? v = none) :=
  ⟨S.foldl GetMap.step GoMap.empty, GetMap.eq_ok S hS, GetMap.foldl_spec S⟩

/-- C1 at the sequence `[3, 5, 3]`. -/
theorem GetMap_counts_witness :
    ([3, 5, 3] : List Nat) ≠ [] ∧
    ∃ m : GoMap Nat Nat, GetMap (Data.slice [3, 5, 3]) = Result.ok m ∧
      m.keys.Nodup ∧
      (∀ v, v ∈ m.keys ↔ v ∈ [3, 5, 3]) ∧
      (∀ v, v ∈ [3, 5, 3] → m.get? v = some (List.count v [3, 5, 3])) ∧
      (∀ v, v ∉ [3, 5, 3] → m.get? v = none) :=
  ⟨by decide, GetMap_counts [3, 5, 3] (by decide)⟩

/-- C2: for every non-empty sequence `S` (the sequences on which `GetMap` is
defined), the values of the map returned by `GetMap` sum to the length of `S`. -/
theorem GetMap_sum_values (S : List α) (hS : S ≠ []) :
    ∃ m : GoMap α Nat, GetMap (Data.slice S) = Result.ok m ∧ m.values.sum = S.length := by
  refine ⟨S.foldl GetMap.step GoMap.empty, GetMap.eq_ok S hS, ?_⟩
  rw [GetMap.foldl_sum]
  simp [GoMap.empty, GoMap.values]

/-- C2 at the sequence `[3, 5, 3]`. -/
theorem GetMap_sum_values_witness :
    ([3, 5, 3] : List Nat) ≠ [] ∧
    ∃ m : GoMap Nat Nat, GetMap (Data.slice [3, 5, 3]) = Result.ok m ∧
      m.values.sum = [3, 5, 3].length :=
  ⟨by decide, GetMap_sum_values [3, 5, 3] (by decide)⟩

/-- C3: for every non-empty sequence `S`, and whatever the order in which the map
hands out its keys, `Unique` succeeds and returns a sequence without repetition
whose elements are exactly the values occurring in `S`; its length is the number
of distinct values of `S`. -/
theorem Unique_distinct (order : List α → List α) (zero : α) (S : List α)
    (horder : ∀ l, (order l).Perm l) (hS : S ≠ []) :
    ∃ u : List α, Unique order zero (Data.slice S) = Result.ok u ∧
      u.Nodup ∧ (∀ v, v ∈ u ↔ v ∈ S) ∧ u.length = S.toFinset.card := by
  obtain ⟨hnodup, hkeys, -, -⟩ := GetMap.foldl_spec S
  have hm := GetMap.eq_ok S hS
  generalize S.foldl GetMap.step GoMap.empty = m at hnodup hkeys hm
  have hlen : S.length ≠ 0 := by simpa using hS
  have hperm := horder (GoMap.keys m)
  have hfill : Unique.fill 0 (MapKeys order m) (List.replicate (List.length m) zero)
      = MapKeys order m := by
    have hl : List.length m = (MapKeys order m).length := by
      have := hperm.length_eq
      simp only [GoMap.keys, List.length_map] at this
      simp [MapKeys, GoMap.keys, this]
    rw [hl]
    exact Unique.fill_replicate _ _
  have hu : (MapKeys order m).Nodup := hperm.nodup_iff.mpr hnodup
  have hmem : ∀ v, v ∈ MapKeys order m ↔ v ∈ S := fun v =>
    (hperm.mem_iff).trans (hkeys v)
  refine ⟨MapKeys order m, ?_, hu, hmem, ?_⟩
  · simp [Unique, hlen, hm, hfill]
  · rw [← List.toFinset_card_of_nodup hu]
    congr 1
    ext v
    simp [hmem v]

/-- C3 at the sequence `[3, 5, 3]`, with the keys handed out in reverse insertion order. -/
theorem Unique_distinct_witness :
    (∀ l : List Nat, (List.reverse l).Perm l) ∧ ([3, 5, 3] : List Nat) ≠ [] ∧
    ∃ u : List Nat, Unique List.reverse 0 (Data.slice [3, 5, 3]) = Result.ok u ∧
      u.Nodup ∧ (∀ v, v ∈ u ↔ v ∈ [3, 5, 3]) ∧ u.length = [3, 5, 3].toFinset.card :=
  ⟨List.reverse_perm, by decide,
    Unique_distinct List.reverse 0 [3, 5, 3] List.reverse_perm (by decide)⟩

end FrequencyClaims

/-! ## Empty input -/

/-- C4, as stated, fails: on the empty sequence the four date-set operations, whose
Go signatures have no `error` result, return the ordinary empty list or map. -/
theorem date_ops_on_empty_return_empty :
    GetUniqueDates [] = [] ∧
    GetUniqueDatesMap [] = GoMap.empty ∧
    DateSetUnion [] [{ nsec := 0, mono := none, loc := none }] = [] ∧
    DateSetDiff [] [{ nsec := 0, mono := none, loc := none }] = [] := by
  refine ⟨rfl, rfl, rfl, rfl⟩

/-- C4, amended: `GetMap`, `Unique`, `GetFieldSlice` and `FilterByDates` return an
error when called with an empty sequence, whatever their other arguments; the
date-set operations `GetUniqueDates`, `GetUniqueDatesMap`, `DateSetUnion` and
`DateSetDiff` have no error result and return the empty list (the empty map)
when their input sequence `A` is empty. -/
theorem empty_input_behaviour {α : Type} [DecidableEq α] :
    (GetMap (Data.slice ([] : List α))).isErr = true ∧
    (∀ (order : List α → List α) (zero : α),
      (Unique order zero (Data.slice [])).isErr = true) ∧
    (∀ (field : String) (transform : Option (Callback Value)),
      (GetFieldSlice (Data.slice []) field transform).result.isErr = true) ∧
    (∀ (field : String) (dates : List Time) (toTime : Option (Callback Time)),
      (FilterByDates (Data.slice []) field dates toTime).isErr = true) ∧
    GetUniqueDates [] = [] ∧
    GetUniqueDatesMap [] = GoMap.empty ∧
    (∀ B : List Time, DateSetUnion [] B = []) ∧
    (∀ B : List Time, DateSetDiff [] B = []) := by
  refine ⟨rfl, fun _ _ => rfl, fun _ _ => rfl, fun _ _ _ => rfl, rfl, rfl,
    fun _ => rfl, fun _ => rfl⟩

/-! ## Deduplication keeping first occurrences -/

section Dedup

variable {α : Type} [DecidableEq α]

theorem FirstOccurrences.step {u P : List α} (h : FirstOccurrences u P) (d : α) :
    FirstOccurrences (addNew u d) (P ++ [d]) := by
  obtain ⟨hnd, hmem, hsub, hpw⟩ := h
  have hidx : ∀ a, a ∈ u → (P ++ [d]).indexOf a = P.indexOf a := fun a ha =>
    List.indexOf_append_of_mem ((hmem a).mp ha)
  have hpw' : u.Pairwise (fun a b => (P ++ [d]).indexOf a < (P ++ [d]).indexOf b) := by
    refine hpw.imp_of_mem ?_
    intro a b ha hb hab
    rw [hidx a ha, hidx b hb]
    exact hab
  unfold BooTools.addNew
  by_cases hd : d ∈ u
  · rw [if_pos hd]
    refine ⟨hnd, ?_, hsub.trans (List.sublist_append_left P [d]), hpw'⟩
    intro x
    constructor
    · intro hx
      exact List.mem_append_left _ ((hmem x).mp hx)
    · intro hx
      rcases List.mem_append.mp hx with hx | hx
      · exact (hmem x).mpr hx
      · have : x = d := by simpa using hx
        rw [this]
        exact hd
  · rw [if_neg hd]
    have hdP : d ∉ P := fun hp => hd ((hmem d).mpr hp)
    refine ⟨?_, ?_, ?_, ?_⟩
    · exact List.Nodup.append hnd (List.nodup_singleton d) (by simpa using hd)
    · intro x
      simp [hmem x]
    · exact List.Sublist.append hsub (List.Sublist.refl [d])
    · rw [List.pairwise_append]
      refine ⟨hpw', List.pairwise_singleton _ _, ?_⟩
      intro a ha b hb
      have hb' : b = d := by simpa using hb
      subst hb'
      rw [hidx a ha, List.indexOf_append_of_not_mem hdP]
      have : P.indexOf a < P.length := List.indexOf_lt_length.mpr ((hmem a).mp ha)
      omega

theorem FirstOccurrences.nil : FirstOccurrences ([] : List α) [] := by
  simp [FirstOccurrences]

/-- Recording only the elements that pass `p` gives the same list as recording
all of them and filtering by `p` afterwards. -/
theorem foldl_addNew_filter (p : α → Bool) (D u : List α) :
    D.foldl (fun u d => if p d then addNew u d else u) (u.filter p) =
      (D.foldl addNew u).filter p := by
  induction D generalizing u with
  | nil => simp
  | cons d D ih =>
    simp only [List.foldl_cons]
    by_cases hp : p d = true
    · have : addNew (u.filter p) d = (addNew u d).filter p := by
        unfold addNew
        by_cases hd : d ∈ u
        · simp [hd, hp]
        · simp [hd, hp, List.filter_append]
      rw [if_pos hp, this, ih]
    · have : (addNew u d).filter p = u.filter p := by
        unfold addNew
        by_cases hd : d ∈ u
        · simp [hd]
        · simp [hd, hp, List.filter_append]
      rw [if_neg hp, ← this, ih]

end Dedup

/-! ## The loops of the date-set helpers -/

theorem dedupStep_spec (p : Time → Bool) (st : List Time × GoMap Time Bool) (a : Time)
    (h : st.2.keys = st.1) :
    (dedupStep p st a).2.keys = (dedupStep p st a).1 ∧
      (dedupStep p st a).1 = if p (dayOf a) then addNew st.1 (dayOf a) else st.1 := by
  unfold dedupStep
  by_cases hp : p (dayOf a) = true
  · simp only [hp, if_true]
    cases hg : st.2.get? (dayOf a) with
    | none =>
      have hk : dayOf a ∉ st.2.keys := (GoMap.get?_eq_none_iff _ _).mp hg
      have hk' : dayOf a ∉ st.1 := by rw [← h]; exact hk
      simp [GoMap.keys_set_of_not_mem _ hk, h, addNew, hk']
    | some b =>
      have hk : dayOf a ∈ st.2.keys := (GoMap.mem_keys_iff _ _).mpr ⟨b, hg⟩
      have hk' : dayOf a ∈ st.1 := by rw [← h]; exact hk
      simp [h, addNew, hk']
  · simp [hp, h]

theorem dedupStep_foldl (p : Time → Bool) (A : List Time) (st : List Time × GoMap Time Bool)
    (h : st.2.keys = st.1) :
    (A.foldl (dedupStep p) st).1 =
      (A.map dayOf).foldl (fun u d => if p d then addNew u d else u) st.1 := by
  induction A generalizing st with
  | nil => simp
  | cons a A ih =>
    obtain ⟨h1, h2⟩ := dedupStep_spec p st a h
    simp only [List.foldl_cons, List.map_cons]
    rw [ih _ h1, h2]

/-- A pass of the deduplicating loop over `A`, started empty, yields the first
occurrences of the days of `A`, restricted to the days that pass `p`. -/
theorem dedupStep_foldl_empty (p : Time → Bool) (A : List Time) :
    (A.foldl (dedupStep p) ([], GoMap.empty)).1 =
      ((A.map dayOf).foldl addNew []).filter p := by
  rw [dedupStep_foldl p A _ (by simp [GoMap.empty, GoMap.keys])]
  exact foldl_addNew_filter p (A.map dayOf) []

/-- The loop of `GetUniqueDatesMap` stores `1` under every day it meets. -/
theorem GetUniqueDatesMap.loop_get? (T : List Time) (m : GoMap Time Int) (d : Time) :
    (T.foldl
      (fun (uniques : GoMap Time Int) t =>
        let d := t.Truncate (24 * Hour)
        match uniques.get? d with
        | none => uniques.set d ((uniques.get? d).getD 0 + 1)
        | some _ => uniques.set d 1) m).get? d =
      if d ∈ T.map dayOf then some 1 else m.get? d := by
  induction T generalizing m with
  | nil => simp
  | cons t T ih =>
    rw [List.foldl_cons, ih]
    by_cases hd : d ∈ T.map dayOf
    · simp [hd]
    · rw [if_neg hd]
      by_cases ht : dayOf t = d
      · subst ht
        have : dayOf t = t.Truncate (24 * Hour) := rfl
        rw [← this]
        cases hg : GoMap.get? m (dayOf t) <;> simp [hg, GoMap.get?_set_self]
      · have hne : ¬ d = dayOf t := fun h => ht h.symm
        have : dayOf t = t.Truncate (24 * Hour) := rfl
        rw [← this]
        have hd' : ¬ ∃ a ∈ T, dayOf a = d := by simpa using hd
        cases hg : GoMap.get? m (dayOf t) <;> simp [hg, GoMap.get?_set_ne _ ht, hne, hd']

theorem GetUniqueDatesMap_get? (T : List Time) (d : Time) :
    (GetUniqueDatesMap T).get? d = if d ∈ T.map dayOf then some 1 else none := by
  unfold GetUniqueDatesMap
  rw [GetUniqueDatesMap.loop_get?]
  simp [GoMap.empty, GoMap.get?]

theorem GetUniqueDates_eq (T : List Time) :
    GetUniqueDates T = (T.map dayOf).foldl addNew [] := by
  have hstep : (fun (st : List Time × GoMap Time Bool) t =>
      let d := t.Truncate (24 * Hour)
      match st.2.get? d with
      | none => (st.1 ++ [d], st.2.set d true)
      | some _ => st) = dedupStep (fun _ => true) := by
    funext st t
    simp [dedupStep, dayOf]
  unfold GetUniqueDates
  rw [hstep, dedupStep_foldl_empty]
  simp

theorem DateSetUnion_eq (A B : List Time) :
    DateSetUnion A B = (GetUniqueDates A).filter (fun d => decide (d ∈ B.map dayOf)) := by
  have hstep : (fun (st : List Time × GoMap Time Bool) a =>
      let aDate := a.Truncate (24 * Hour)
      match (GetUniqueDatesMap B).get? aDate with
      | some _ =>
        match st.2.get? aDate with
        | none => (st.1 ++ [aDate], st.2.set aDate true)
        | some _ => st
      | none => st) = dedupStep (fun d => decide (d ∈ B.map dayOf)) := by
    funext st a
    have hd : a.Truncate (24 * Hour) = dayOf a := rfl
    simp only [dedupStep, hd, GetUniqueDatesMap_get?]
    by_cases hm : dayOf a ∈ B.map dayOf
    · simp [hm]
    · simp [hm]
  unfold DateSetUnion
  simp only []
  rw [hstep, dedupStep_foldl_empty, GetUniqueDates_eq]

theorem DateSetDiff_eq (A B : List Time) :
    DateSetDiff A B = (GetUniqueDates A).filter (fun d => decide (d ∉ B.map dayOf)) := by
  have hstep : (fun (st : List Time × GoMap Time Bool) a =>
      let aDate := a.Truncate (24 * Hour)
      match (GetUniqueDatesMap B).get? aDate with
      | none =>
        match st.2.get? aDate with
        | none => (st.1 ++ [aDate], st.2.set aDate true)
        | some _ => st
      | some _ => st) = dedupStep (fun d => decide (d ∉ B.map dayOf)) := by
    funext st a
    have hd : a.Truncate (24 * Hour) = dayOf a := rfl
    simp only [dedupStep, hd, GetUniqueDatesMap_get?]
    by_cases hm : dayOf a ∈ B.map dayOf
    · simp [hm]
    · simp [hm]
  unfold DateSetDiff
  simp only []
  rw [hstep, dedupStep_foldl_empty, GetUniqueDates_eq]

/-- C8 fails on the code: three timestamps of 2024-01-01 (08:00, 12:00 and 20:00 UTC)
make `GetUniqueDatesMap` store the count `1`, not `3`, for that day. -/
theorem GetUniqueDatesMap_three_same_day :
    GetUniqueDatesMap
      [{ nsec := 63839664000000000000 + 8 * 3600000000000, mono := none, loc := none },
       { nsec := 63839664000000000000 + 12 * 3600000000000, mono := none, loc := none },
       { nsec := 63839664000000000000 + 20 * 3600000000000, mono := none, loc := none }] =
      [({ nsec := 63839664000000000000, mono := none, loc := none }, 1)] := by
  decide

theorem readField_eq_ok_iff (op : String) (rec : Record) (field : String) (v : Value) :
    readField op rec field = Except.ok v ↔
      rec.isStruct = true ∧ FieldByName rec field = some v ∧
        fieldExported rec field = true := by
  unfold readField
  cases hs : rec.isStruct
  · simp
  · cases hF : FieldByName rec field with
    | none => simp
    | some w =>
      cases he : fieldExported rec field <;> simp

theorem FieldByName_isStruct (rec : Record) (field : String)
    (h : FieldByName rec field ≠ none) : rec.isStruct = true := by
  cases rec with
  | struct fields => rfl
  | other => simp [FieldByName, Record.field?] at h

/-- A struct element whose field exists and is exported can be read. -/
theorem readField_of_exported (op : String) (rec : Record) (field : String)
    (hF : FieldByName rec field ≠ none) (he : fieldExported rec field = true) :
    ∃ v, readField op rec field = Except.ok v ∧ FieldByName rec field = some v := by
  obtain ⟨v, hv⟩ := Option.ne_none_iff_exists'.mp hF
  exact ⟨v, (readField_eq_ok_iff op rec field v).mpr
    ⟨FieldByName_isStruct rec field hF, hv, he⟩, hv⟩

/-! ## Field projection -/

theorem set_length_append {α : Type} (pre suf : List α) (s w : α) :
    (pre ++ s :: suf).set pre.length w = (pre ++ [w]) ++ suf := by
  simp [List.set_append]

/-- When the loop of `GetFieldSlice` ends normally, it has overwritten the rest of
the output slice with the outputs for the remaining records, in order. -/
theorem GetFieldSlice.loop_ok (field : String) (transform : Option (Callback Value))
    (outType : Option Ty) (rest : List Record) (pre suf calls out : List Value)
    (hlen : suf.length = rest.length)
    (h : (GetFieldSlice.loop field transform outType pre.length rest (pre ++ suf) calls).result
      = Result.ok out) :
    ∃ ws, out = pre ++ ws ∧ List.Forall₂ (FieldOutput field transform) rest ws := by
  induction rest generalizing pre suf calls with
  | nil =>
    have hs : suf = [] := List.length_eq_zero.mp (by simpa using hlen)
    subst hs
    simp only [GetFieldSlice.loop, Result.ok.injEq] at h
    exact ⟨[], by simpa using h.symm, List.Forall₂.nil⟩
  | cons r rest ih =>
    cases suf with
    | nil => simp at hlen
    | cons s suf =>
      have hlen' : suf.length = rest.length := by simpa using hlen
      cases transform with
      | none =>
        cases hR : readField "Set" r field with
        | error msg => simp [GetFieldSlice.loop, hR] at h
        | ok v =>
          have hF : FieldByName r field = some v :=
            ((readField_eq_ok_iff _ r field v).mp hR).2.1
          simp only [GetFieldSlice.loop, hR, set_length_append] at h
          have h' : (GetFieldSlice.loop field none outType (pre ++ [v]).length rest
              ((pre ++ [v]) ++ suf) calls).result = Result.ok out := by
            simpa using h
          obtain ⟨ws, hout, hall⟩ := ih (pre ++ [v]) suf calls hlen' h'
          refine ⟨v :: ws, by simpa using hout, List.Forall₂.cons ?_ hall⟩
          exact ⟨v, hF, rfl⟩
      | some tr =>
        cases hR : readField "Interface" r field with
        | error msg => simp [GetFieldSlice.loop, hR] at h
        | ok v =>
          have hF : FieldByName r field = some v :=
            ((readField_eq_ok_iff _ r field v).mp hR).2.1
          cases htr : tr v with
          | error e => simp [GetFieldSlice.loop, hR, htr] at h
          | ok w =>
            by_cases hty : w.TypeOf ≠ none ∧ w.TypeOf = outType
            · simp only [GetFieldSlice.loop, hR, htr, if_pos hty, set_length_append] at h
              have h' : (GetFieldSlice.loop field (some tr) outType (pre ++ [w]).length rest
                  ((pre ++ [w]) ++ suf) (calls ++ [v])).result = Result.ok out := by
                simpa using h
              obtain ⟨ws, hout, hall⟩ := ih (pre ++ [w]) suf (calls ++ [v]) hlen' h'
              refine ⟨w :: ws, by simpa using hout, List.Forall₂.cons ?_ hall⟩
              exact ⟨v, hF, htr⟩
            · simp [GetFieldSlice.loop, hR, htr, if_neg hty] at h

/-- A successful call of `GetFieldSlice` returns the outputs for the records of the
input, in order. -/
theorem GetFieldSlice.ok_forall₂ (S : List Record) (field : String)
    (transform : Option (Callback Value)) (out : List Value)
    (hok : (GetFieldSlice (Data.slice S) field transform).result = Result.ok out) :
    List.Forall₂ (FieldOutput field transform) S out := by
  cases S with
  | nil => simp [GetFieldSlice] at hok
  | cons first rest =>
    cases hs : first.isStruct with
    | false => simp [GetFieldSlice, hs] at hok
    | true =>
      cases hF : FieldByName first field with
      | none => simp [GetFieldSlice, hs, hF] at hok
      | some v0 =>
        cases transform with
        | none =>
          simp only [GetFieldSlice, hs, hF, if_true] at hok
          obtain ⟨ws, hout, hall⟩ := GetFieldSlice.loop_ok field none v0.TypeOf
            (first :: rest) []
            (List.replicate (first :: rest).length (zeroValue v0.TypeOf)) [] out (by simp)
            (by simpa using hok)
          simpa [hout] using hall
        | some tr =>
          cases he : fieldExported first field with
          | false => simp [GetFieldSlice, hs, hF, he] at hok
          | true =>
            cases htr : tr v0 with
            | error e => simp [GetFieldSlice, hs, hF, he, htr] at hok
            | ok tmp =>
              cases hty : tmp.TypeOf with
              | none => simp [GetFieldSlice, hs, hF, he, htr, hty] at hok
              | some outType =>
                simp only [GetFieldSlice, hs, hF, he, htr, hty, if_true] at hok
                obtain ⟨ws, hout, hall⟩ := GetFieldSlice.loop_ok field (some tr)
                  (some outType) (first :: rest) []
                  (List.replicate (first :: rest).length (zeroValue (some outType))) [v0] out
                  (by simp) (by simpa using hok)
                simpa [hout] using hall

/-- C5: when `GetFieldSlice` succeeds, its result has the length of the input `S`
and its `i`-th element is the value of field `f` of `S[i]` when no transform is
given, and the output of the transform on that value when one is given; the
order of the input is preserved. (A call that succeeds has a non-empty `S` all of
whose records have the field.) -/
theorem GetFieldSlice_values (S : List Record) (f : String)
    (transform : Option (Callback Value)) (out : List Value)
    (hok : (GetFieldSlice (Data.slice S) f transform).result = Result.ok out) :
    S ≠ [] ∧ out.length = S.length ∧
    ∀ (i : Nat) (hi : i < S.length) (ho : i < out.length),
      ∃ v, FieldByName S[i] f = some v ∧
        (transform = none → out[i] = v) ∧
        (∀ tr, transform = some tr → tr v = Except.ok out[i]) := by
  have hall := GetFieldSlice.ok_forall₂ S f transform out hok
  refine ⟨?_, hall.length_eq.symm, ?_⟩
  · rintro rfl
    simp [GetFieldSlice] at hok
  · intro i hi ho
    obtain ⟨v, hv, hw⟩ := hall.get hi ho
    refine ⟨v, hv, ?_, ?_⟩
    · rintro rfl
      exact hw
    · rintro tr rfl
      exact hw

/-- C5 at the records `[{Name:"a",Age:1},{Name:"b",Age:2}]`, field `"Name"`, no transform:
the call returns `["a","b"]`. -/
theorem GetFieldSlice_values_witness :
    (GetFieldSlice (Data.slice exampleRecords) "Name" none).result
      = Result.ok [Value.str "a", Value.str "b"] ∧
    exampleRecords ≠ [] ∧
    [Value.str "a", Value.str "b"].length = exampleRecords.length ∧
    ∀ (i : Nat) (_ : i < exampleRecords.length)
      (_ : i < [Value.str "a", Value.str "b"].length),
      ∃ v, FieldByName exampleRecords[i] "Name" = some v ∧
        ((none : Option (Callback Value)) = none → [Value.str "a", Value.str "b"][i] = v) ∧
        (∀ tr, (none : Option (Callback Value)) = some tr →
          tr v = Except.ok [Value.str "a", Value.str "b"][i]) :=
  ⟨by decide,
    GetFieldSlice_values exampleRecords "Name" none [Value.str "a", Value.str "b"]
      (by decide)⟩

/-! ## Field projection: when it fails -/

/-- Without a transform, the loop of `GetFieldSlice` ends normally when the field of
every remaining record can be read. -/
theorem GetFieldSlice.loop_none_isOk (field : String) (outType : Option Ty)
    (rest : List Record) (i : Nat) (out calls : List Value)
    (hfield : ∀ r, r ∈ rest → ∃ v, readField "Set" r field = Except.ok v) :
    (GetFieldSlice.loop field none outType i rest out calls).result.isOk = true ∧
      (GetFieldSlice.loop field none outType i rest out calls).calls = calls := by
  induction rest generalizing i out with
  | nil => simp [GetFieldSlice.loop, Result.isOk]
  | cons r rest ih =>
    obtain ⟨v, hv⟩ := hfield r (List.mem_cons_self r rest)
    simp only [GetFieldSlice.loop, hv]
    exact ih (i + 1) _ (fun r' hr' => hfield r' (List.mem_cons_of_mem r hr'))

/-- With a transform whose outputs all have the element type of the output slice,
the loop of `GetFieldSlice` returns an error exactly when the transform fails on
the field of some remaining record, and ends normally otherwise. -/
theorem GetFieldSlice.loop_some_result (field : String) (tr : Callback Value)
    (outType : Option Ty) (rest : List Record) (i : Nat) (out calls : List Value)
    (hfield : ∀ r, r ∈ rest → ∃ v, readField "Interface" r field = Except.ok v)
    (htyped : ∀ r, r ∈ rest → ∀ v w, FieldByName r field = some v → tr v = Except.ok w →
      w.TypeOf ≠ none ∧ w.TypeOf = outType) :
    ((GetFieldSlice.loop field (some tr) outType i rest out calls).result.isErr = true ↔
        ∃ r, r ∈ rest ∧ ∃ v e, FieldByName r field = some v ∧ tr v = Except.error e) ∧
      ((GetFieldSlice.loop field (some tr) outType i rest out calls).result.isErr = false →
        (GetFieldSlice.loop field (some tr) outType i rest out calls).result.isOk = true) := by
  induction rest generalizing i out calls with
  | nil => simp [GetFieldSlice.loop, Result.isOk, Result.isErr]
  | cons r rest ih =>
    obtain ⟨v, hR⟩ := hfield r (List.mem_cons_self r rest)
    have hv : FieldByName r field = some v := ((readField_eq_ok_iff _ r field v).mp hR).2.1
    cases htr : tr v with
    | error e =>
      simp only [GetFieldSlice.loop, hR, htr, Result.isErr]
      refine ⟨⟨fun _ => ⟨r, List.mem_cons_self r rest, v, e, hv, htr⟩, fun _ => trivial⟩, ?_⟩
      intro h
      simp at h
    | ok w =>
      have hty := htyped r (List.mem_cons_self r rest) v w hv htr
      simp only [GetFieldSlice.loop, hR, htr, if_pos hty]
      obtain ⟨h1, h2⟩ := ih (i + 1) (out.set i w) (calls ++ [v])
        (fun r' hr' => hfield r' (List.mem_cons_of_mem r hr'))
        (fun r' hr' => htyped r' (List.mem_cons_of_mem r hr'))
      refine ⟨h1.trans ⟨?_, ?_⟩, h2⟩
      · rintro ⟨r', hr', hex⟩
        exact ⟨r', List.mem_cons_of_mem r hr', hex⟩
      · rintro ⟨r', hr', v', e, hv', he⟩
        rcases List.mem_cons.mp hr' with rfl | hr'
        · rw [hv] at hv'
          cases hv'
          rw [htr] at he
          cases he
        · exact ⟨r', hr', v', e, hv', he⟩

theorem Result.isErr_eq_false_of_isOk {α : Type} (r : Result α) (h : r.isOk = true) :
    r.isErr = false := by
  cases r <;> simp [Result.isOk, Result.isErr] at h ⊢

theorem lengthTransform_typeOf (v w : Value) (h : lengthTransform v = Except.ok w) :
    w.TypeOf = some Ty.int := by
  cases v <;> simp [lengthTransform] at h
  subst h
  rfl

/-- C6, as stated, fails: with a transform that never returns an error but whose
outputs differ in dynamic type, a call on a non-empty slice whose records all have
the field neither succeeds nor returns an error, it panics in `reflect.Set`; with
such a transform the call can panic although the transform returns an error for a
later element; and when the field exists but is unexported, the call panics as
well, with or without a transform. -/
theorem GetFieldSlice_mixed_outputs_panic :
    exampleRecords ≠ [] ∧
    (∀ r, r ∈ exampleRecords → FieldByName r "Name" ≠ none) ∧
    (∀ v, ∃ w, mixedTransform v = Except.ok w) ∧
    (GetFieldSlice (Data.slice exampleRecords) "Name" (some mixedTransform)).result =
      Result.panic "reflect.Set: value is not assignable to the element type" ∧
    mixedFailingTransform (Value.str "c") = Except.error "unexpected value" ∧
    (GetFieldSlice (Data.slice abcRecords) "Name" (some mixedFailingTransform)).result =
      Result.panic "reflect.Set: value is not assignable to the element type" ∧
    (∀ r, r ∈ unexportedNameRecords → FieldByName r "name" ≠ none) ∧
    (GetFieldSlice (Data.slice unexportedNameRecords) "name" none).result =
      Result.panic "reflect.Value.Set: value obtained using unexported field" ∧
    (GetFieldSlice (Data.slice unexportedNameRecords) "name" (some lengthTransform)).result =
      Result.panic "reflect.Value.Interface: value obtained using unexported field" := by
  refine ⟨by decide, by decide, ?_, by decide, by simp [mixedFailingTransform], by decide,
    by decide, by decide, by decide⟩
  intro v
  unfold mixedTransform
  split
  · exact ⟨_, rfl⟩
  · exact ⟨_, rfl⟩

/-- C6, amended: let `S` be a slice of struct values of one struct type (field `f`
exists on all of them or on none) in which field `f`, where it exists, is
exported, and let the transform, when supplied, produce on the field values of `S`
only non-nil outputs of one dynamic type. Then `GetFieldSlice` returns an error
(which carries no result) exactly when `S` is empty, or field `f` does not exist
on the first element of `S`, or a transform is supplied and it returns an error
for at least one element of `S`; in every other case it succeeds. When the field
is missing on the first element the transform is never invoked. -/
theorem GetFieldSlice_error_iff (S : List Record) (f : String)
    (transform : Option (Callback Value))
    (hstruct : ∀ r, r ∈ S → r.isStruct = true)
    (hhom : ∀ r, r ∈ S → ∀ r', r' ∈ S →
      (FieldByName r f).isSome = (FieldByName r' f).isSome)
    (hexp : ∀ r, r ∈ S → FieldByName r f ≠ none → fieldExported r f = true)
    (htyped : ∀ tr, transform = some tr → ∃ ty : Ty, ∀ r, r ∈ S → ∀ v w,
      FieldByName r f = some v → tr v = Except.ok w → w.TypeOf = some ty) :
    ((GetFieldSlice (Data.slice S) f transform).result.isErr = true ↔
      (S = [] ∨ (∃ first, S.head? = some first ∧ FieldByName first f = none) ∨
        (∃ tr, transform = some tr ∧
          ∃ r, r ∈ S ∧ ∃ v e, FieldByName r f = some v ∧ tr v = Except.error e))) ∧
    ((GetFieldSlice (Data.slice S) f transform).result.isErr = false →
      (GetFieldSlice (Data.slice S) f transform).result.isOk = true) ∧
    (∀ first, S.head? = some first → FieldByName first f = none →
      (GetFieldSlice (Data.slice S) f transform).calls = []) := by
  cases S with
  | nil => simp [GetFieldSlice, Result.isErr]
  | cons first rest =>
    have hs : first.isStruct = true := hstruct first (List.mem_cons_self first rest)
    cases hF : FieldByName first f with
    | none => simp [GetFieldSlice, Result.isErr, hs, hF]
    | some v0 =>
      have hpresent : ∀ r, r ∈ first :: rest → FieldByName r f ≠ none := by
        intro r hr
        have := hhom r hr first (List.mem_cons_self first rest)
        rw [hF] at this
        intro hn
        rw [hn] at this
        simp at this
      have hread : ∀ op r, r ∈ first :: rest → ∃ v, readField op r f = Except.ok v := by
        intro op r hr
        obtain ⟨v, hv, -⟩ := readField_of_exported op r f (hpresent r hr)
          (hexp r hr (hpresent r hr))
        exact ⟨v, hv⟩
      have he : fieldExported first f = true :=
        hexp first (List.mem_cons_self first rest)
          (hpresent first (List.mem_cons_self first rest))
      have hhead : ∀ first', (first :: rest).head? = some first' →
          FieldByName first' f = none → False := by
        intro first' h1 h2
        simp only [List.head?_cons, Option.some.injEq] at h1
        subst h1
        rw [hF] at h2
        cases h2
      cases transform with
      | none =>
        have hok := (GetFieldSlice.loop_none_isOk f v0.TypeOf (first :: rest) 0
          (List.replicate (first :: rest).length (zeroValue v0.TypeOf)) []
          (hread "Set")).1
        have herr := Result.isErr_eq_false_of_isOk _ hok
        simp only [GetFieldSlice, hs, hF, if_true]
        refine ⟨?_, fun _ => hok, fun first' h1 h2 => (hhead first' h1 h2).elim⟩
        rw [herr]
        simp [hF]
      | some tr =>
        cases htr : tr v0 with
        | error e =>
          simp only [GetFieldSlice, hs, hF, he, htr, Result.isErr, if_true]
          refine ⟨⟨fun _ => ?_, fun _ => trivial⟩, ?_,
            fun first' h1 h2 => (hhead first' h1 h2).elim⟩
          · exact Or.inr (Or.inr ⟨tr, rfl, first, List.mem_cons_self first rest, v0, e, hF, htr⟩)
          · intro h
            simp at h
        | ok tmp =>
          obtain ⟨ty, hty⟩ := htyped tr rfl
          have htmp : tmp.TypeOf = some ty :=
            hty first (List.mem_cons_self first rest) v0 tmp hF htr
          have hloop := GetFieldSlice.loop_some_result f tr (some ty) (first :: rest) 0
            (List.replicate (first :: rest).length (zeroValue (some ty))) [v0]
            (hread "Interface")
            (fun r hr v w hv hw => by
              have := hty r hr v w hv hw
              rw [this]
              exact ⟨by simp, rfl⟩)
          simp only [GetFieldSlice, hs, hF, he, htr, htmp, if_true]
          refine ⟨hloop.1.trans ⟨fun h => Or.inr (Or.inr ⟨tr, rfl, h⟩), ?_⟩, hloop.2,
            fun first' h1 h2 => (hhead first' h1 h2).elim⟩
          rintro (h | ⟨first', h1, h2⟩ | ⟨tr', htr', h⟩)
          · cases h
          · exact (hhead first' h1 h2).elim
          · cases htr'
            exact h

/-- C6, amended, at the example records with field `"Name"` and a transform that maps
a string to its length: the transform is applied to both names, all its outputs are
`int`s, and the call succeeds. -/
theorem GetFieldSlice_error_iff_witness :
    (∀ r, r ∈ exampleRecords → r.isStruct = true) ∧
    (∀ r, r ∈ exampleRecords → ∀ r', r' ∈ exampleRecords →
      (FieldByName r "Name").isSome = (FieldByName r' "Name").isSome) ∧
    (∀ r, r ∈ exampleRecords → FieldByName r "Name" ≠ none →
      fieldExported r "Name" = true) ∧
    (GetFieldSlice (Data.slice exampleRecords) "Name" (some lengthTransform)).result
      = Result.ok [Value.int 1, Value.int 1] ∧
    ((GetFieldSlice (Data.slice exampleRecords) "Name" (some lengthTransform)).result.isErr
        = true ↔
      (exampleRecords = [] ∨
        (∃ first, exampleRecords.head? = some first ∧ FieldByName first "Name" = none) ∨
        (∃ tr, some lengthTransform = some tr ∧
          ∃ r, r ∈ exampleRecords ∧ ∃ v e,
            FieldByName r "Name" = some v ∧ tr v = Except.error e))) ∧
    ((GetFieldSlice (Data.slice exampleRecords) "Name" (some lengthTransform)).result.isErr
        = false →
      (GetFieldSlice (Data.slice exampleRecords) "Name" (some lengthTransform)).result.isOk
        = true) ∧
    (∀ first, exampleRecords.head? = some first → FieldByName first "Name" = none →
      (GetFieldSlice (Data.slice exampleRecords) "Name" (some lengthTransform)).calls = []) :=
  ⟨by decide, by decide, by decide, by decide,
    GetFieldSlice_error_iff exampleRecords "Name" (some lengthTransform) (by decide)
      (by decide) (by decide)
      (fun tr htr => ⟨Ty.int, fun _ _ v w _ hw => by
        cases htr
        exact lengthTransform_typeOf v w hw⟩)⟩

/-! ## Union and difference partition the days of `A` -/

/-- C11: `DateSetUnion A B` and `DateSetDiff A B` partition the days of `A`: the two
results share no day (for all `A` and `B`, so in particular when `B` is non-empty
and `A` has no duplicate days), and the days of `DateSetUnion A B` together with
the days of `DateSetDiff A B` are exactly the days of `GetUniqueDates A`. -/
theorem DateSetUnion_DateSetDiff_partition (A B : List Time) :
    (B ≠ [] → (A.map (fun t => t.Truncate (24 * Hour))).Nodup →
      List.Disjoint (DateSetUnion A B) (DateSetDiff A B)) ∧
    List.Disjoint (DateSetUnion A B) (DateSetDiff A B) ∧
    (DateSetUnion A B).toFinset ∪ (DateSetDiff A B).toFinset =
      (GetUniqueDates A).toFinset := by
  have hdisj : List.Disjoint (DateSetUnion A B) (DateSetDiff A B) := by
    intro d hu hd
    rw [DateSetUnion_eq, List.mem_filter] at hu
    rw [DateSetDiff_eq, List.mem_filter] at hd
    have h1 : d ∈ B.map dayOf := by simpa using hu.2
    have h2 : d ∉ B.map dayOf := by simpa using hd.2
    exact h2 h1
  refine ⟨fun _ _ => hdisj, hdisj, ?_⟩
  ext d
  rw [Finset.mem_union, List.mem_toFinset, List.mem_toFinset, List.mem_toFinset,
    DateSetUnion_eq, DateSetDiff_eq, List.mem_filter, List.mem_filter]
  by_cases hB : d ∈ B.map dayOf
  · simp [hB]
  · simp [hB]

/-! ## `Unique` applied twice -/

/-- What a call of `Unique` on a non-empty slice returns. -/
theorem Unique.ok_spec {α : Type} [DecidableEq α] (order : List α → List α) (zero : α)
    (S : List α) (horder : ∀ l, (order l).Perm l) (hS : S ≠ []) :
    ∃ u : List α, Unique order zero (Data.slice S) = Result.ok u ∧
      u.Nodup ∧ (∀ v, v ∈ u ↔ v ∈ S) := by
  obtain ⟨hnodup, hkeys, -, -⟩ := GetMap.foldl_spec S
  have hm := GetMap.eq_ok S hS
  generalize S.foldl GetMap.step GoMap.empty = m at hnodup hkeys hm
  have hlen : S.length ≠ 0 := by simpa using hS
  have hperm := horder (GoMap.keys m)
  have hfill : Unique.fill 0 (MapKeys order m) (List.replicate (List.length m) zero)
      = MapKeys order m := by
    have hl : List.length m = (MapKeys order m).length := by
      have := hperm.length_eq
      simp only [GoMap.keys, List.length_map] at this
      simp [MapKeys, GoMap.keys, this]
    rw [hl]
    exact Unique.fill_replicate _ _
  refine ⟨MapKeys order m, ?_, hperm.nodup_iff.mpr hnodup,
    fun v => (hperm.mem_iff).trans (hkeys v)⟩
  simp [Unique, hlen, hm, hfill]

/-- C15: `Unique` is idempotent up to order. For every non-empty sequence `S`,
`Unique` succeeds on `S`, succeeds again on its own result, and the second result
has the same elements and the same length as the first (it is a permutation of
it), whatever the orders in which the two maps hand out their keys. -/
theorem Unique_idempotent {α : Type} [DecidableEq α] (order order' : List α → List α)
    (zero : α) (S : List α) (horder : ∀ l, (order l).Perm l)
    (horder' : ∀ l, (order' l).Perm l) (hS : S ≠ []) :
    ∃ u u' : List α, Unique order zero (Data.slice S) = Result.ok u ∧
      Unique order' zero (Data.slice u) = Result.ok u' ∧
      (∀ v, v ∈ u' ↔ v ∈ u) ∧ u'.length = u.length ∧ u'.Perm u := by
  obtain ⟨u, hu, hnd, hmem⟩ := Unique.ok_spec order zero S horder hS
  have hne : u ≠ [] := by
    obtain ⟨x, hx⟩ := List.exists_mem_of_ne_nil S hS
    exact List.ne_nil_of_mem ((hmem x).mpr hx)
  obtain ⟨u', hu', hnd', hmem'⟩ := Unique.ok_spec order' zero u horder' hne
  have hperm : u'.Perm u := (List.perm_ext_iff_of_nodup hnd' hnd).mpr hmem'
  exact ⟨u, u', hu, hu', hmem', hperm.length_eq, hperm⟩

/-- C15 at the sequence `[3, 5, 3]`, with reverse insertion order for the first call
and insertion order for the second. -/
theorem Unique_idempotent_witness :
    (∀ l : List Nat, (List.reverse l).Perm l) ∧ (∀ l : List Nat, (id l).Perm l) ∧
    ([3, 5, 3] : List Nat) ≠ [] ∧
    ∃ u u' : List Nat, Unique List.reverse 0 (Data.slice [3, 5, 3]) = Result.ok u ∧
      Unique id 0 (Data.slice u) = Result.ok u' ∧
      (∀ v, v ∈ u' ↔ v ∈ u) ∧ u'.length = u.length ∧ u'.Perm u :=
  ⟨List.reverse_perm, fun l => List.Perm.refl l, by decide,
    Unique_idempotent List.reverse id 0 [3, 5, 3] List.reverse_perm
      (fun l => List.Perm.refl l) (by decide)⟩

/-! ## The loop of `FilterByDates` -/

/-- An iteration of the loop of `FilterByDates` on a record whose timestamp can be
read: the record is appended exactly when its UTC day is a key of the map. -/
theorem FilterByDates.loop_cons_some (field : String) (dateMap : GoMap Time Int)
    (toTime : Option (Callback Time)) (i : Nat) (r : Record) (rest acc : List Record)
    (t : Time) (ht : fieldTime field toTime r = some t) :
    FilterByDates.loop field dateMap toTime i (r :: rest) acc =
      if (dateMap.get? (t.UTC.Truncate (24 * Hour))).isSome then
        FilterByDates.loop field dateMap toTime (i + 1) rest (acc ++ [r])
      else FilterByDates.loop field dateMap toTime (i + 1) rest acc := by
  unfold fieldTime at ht
  cases hR : readField "Interface" r field with
  | error msg => simp [hR] at ht
  | ok v =>
    rw [hR] at ht
    cases toTime with
    | some f =>
      cases hf : f v with
      | error e => simp [hf] at ht
      | ok t' =>
        simp only [hf, Option.some.injEq] at ht
        subst ht
        simp only [FilterByDates.loop, hR, hf]
        cases dateMap.get? (t'.UTC.Truncate (24 * Hour)) <;> simp
    | none =>
      cases v with
      | time t' =>
        simp only [Option.some.injEq] at ht
        subst ht
        simp only [FilterByDates.loop, hR]
        cases dateMap.get? (t'.UTC.Truncate (24 * Hour)) <;> simp
      | nil => simp at ht
      | bool b => simp at ht
      | int n => simp at ht
      | str x => simp at ht

/-- An iteration of the loop of `FilterByDates` on a record whose timestamp cannot
be read ends the call, whatever the map: with a panic when the field cannot be
read (the element is not a struct, the field is missing or unexported), with an
error otherwise. -/
theorem FilterByDates.loop_cons_none (field : String) (dateMap : GoMap Time Int)
    (toTime : Option (Callback Time)) (i : Nat) (r : Record) (rest acc : List Record)
    (ht : fieldTime field toTime r = none) :
    (FilterByDates.loop field dateMap toTime i (r :: rest) acc).isOk = false ∧
    ((∃ v, readField "Interface" r field = Except.ok v) →
      (FilterByDates.loop field dateMap toTime i (r :: rest) acc).isErr = true) ∧
    FilterByDates.loop field dateMap toTime i (r :: rest) acc =
      FilterByDates.loop field [] toTime i (r :: rest) acc := by
  unfold fieldTime at ht
  cases hR : readField "Interface" r field with
  | error msg => simp [FilterByDates.loop, hR, Result.isOk]
  | ok v =>
    rw [hR] at ht
    cases toTime with
    | some f =>
      cases hf : f v with
      | error e => simp [FilterByDates.loop, hR, hf, Result.isOk, Result.isErr]
      | ok t' => simp [hf] at ht
    | none =>
      cases v with
      | time t' => simp at ht
      | nil => simp [FilterByDates.loop, hR, Result.isOk, Result.isErr]
      | bool b => simp [FilterByDates.loop, hR, Result.isOk, Result.isErr]
      | int n => simp [FilterByDates.loop, hR, Result.isOk, Result.isErr]
      | str x => simp [FilterByDates.loop, hR, Result.isOk, Result.isErr]

theorem GetUniqueDatesMap_isSome (dates : List Time) (k : Time) :
    ((GetUniqueDatesMap dates).get? k).isSome =
      decide (k ∈ dates.map (fun d => d.Truncate (24 * Hour))) := by
  rw [GetUniqueDatesMap_get?]
  by_cases h : k ∈ dates.map dayOf
  · have h' : k ∈ dates.map (fun d => d.Truncate (24 * Hour)) := h
    simp only [if_pos h, Option.isSome_some, decide_eq_true h']
  · have h' : k ∉ dates.map (fun d => d.Truncate (24 * Hour)) := h
    simp only [if_neg h, Option.isSome_none, decide_eq_false h']

/-- When every remaining record has a readable timestamp, the loop of
`FilterByDates` ends normally, having appended the records it keeps, in order. -/
theorem FilterByDates.loop_eq_ok (field : String) (dates : List Time)
    (toTime : Option (Callback Time)) (rest : List Record) (i : Nat) (acc : List Record)
    (hall : ∀ r, r ∈ rest → ∃ t, fieldTime field toTime r = some t) :
    FilterByDates.loop field (GetUniqueDatesMap dates) toTime i rest acc =
      Result.ok (acc ++ rest.filter (keepsRecord field dates toTime)) := by
  induction rest generalizing i acc with
  | nil => simp [FilterByDates.loop]
  | cons r rest ih =>
    obtain ⟨t, ht⟩ := hall r (List.mem_cons_self r rest)
    have hrest : ∀ r', r' ∈ rest → ∃ t, fieldTime field toTime r' = some t :=
      fun r' hr' => hall r' (List.mem_cons_of_mem r hr')
    have hkeep : keepsRecord field dates toTime r =
        ((GetUniqueDatesMap dates).get? (t.UTC.Truncate (24 * Hour))).isSome := by
      rw [GetUniqueDatesMap_isSome]
      simp [keepsRecord, ht]
    rw [FilterByDates.loop_cons_some field _ toTime i r rest acc t ht, ← hkeep]
    cases hk : keepsRecord field dates toTime r
    · simp only [Bool.false_eq_true, if_false]
      rw [ih (i + 1) acc hrest, List.filter_cons_of_neg (by simp [hk])]
    · simp only [if_true]
      rw [ih (i + 1) (acc ++ [r]) hrest, List.filter_cons_of_pos hk]
      simp

/-- When some remaining record has no readable timestamp, the loop of
`FilterByDates` does not end normally; it returns an error when the field of every
remaining record can be read. -/
theorem FilterByDates.loop_not_ok (field : String) (dateMap : GoMap Time Int)
    (toTime : Option (Callback Time)) (rest : List Record) (i : Nat) (acc : List Record)
    (hbad : ∃ r, r ∈ rest ∧ fieldTime field toTime r = none) :
    (FilterByDates.loop field dateMap toTime i rest acc).isOk = false ∧
    ((∀ r, r ∈ rest → ∃ v, readField "Interface" r field = Except.ok v) →
      (FilterByDates.loop field dateMap toTime i rest acc).isErr = true) := by
  induction rest generalizing i acc with
  | nil =>
    obtain ⟨r, hr, -⟩ := hbad
    simp at hr
  | cons r rest ih =>
    cases ht : fieldTime field toTime r with
    | none =>
      obtain ⟨h1, h2, -⟩ := FilterByDates.loop_cons_none field dateMap toTime i r rest acc ht
      exact ⟨h1, fun hf => h2 (hf r (List.mem_cons_self r rest))⟩
    | some t =>
      have hbad' : ∃ r', r' ∈ rest ∧ fieldTime field toTime r' = none := by
        obtain ⟨r', hr', hn⟩ := hbad
        rcases List.mem_cons.mp hr' with rfl | hr'
        · rw [ht] at hn
          cases hn
        · exact ⟨r', hr', hn⟩
      rw [FilterByDates.loop_cons_some field dateMap toTime i r rest acc t ht]
      split
      · obtain ⟨h1, h2⟩ := ih (i + 1) (acc ++ [r]) hbad'
        exact ⟨h1, fun hf => h2 (fun r' hr' => hf r' (List.mem_cons_of_mem r hr'))⟩
      · obtain ⟨h1, h2⟩ := ih (i + 1) acc hbad'
        exact ⟨h1, fun hf => h2 (fun r' hr' => hf r' (List.mem_cons_of_mem r hr'))⟩

/-- The loop of `FilterByDates` uses the map only to test whether a day is a key. -/
theorem FilterByDates.loop_congr (field : String) (m m' : GoMap Time Int)
    (toTime : Option (Callback Time)) (rest : List Record) (i : Nat) (acc : List Record)
    (h : ∀ k, (m.get? k).isSome = (m'.get? k).isSome) :
    FilterByDates.loop field m toTime i rest acc =
      FilterByDates.loop field m' toTime i rest acc := by
  induction rest generalizing i acc with
  | nil => simp [FilterByDates.loop]
  | cons r rest ih =>
    cases ht : fieldTime field toTime r with
    | none =>
      rw [(FilterByDates.loop_cons_none field m toTime i r rest acc ht).2.2,
        (FilterByDates.loop_cons_none field m' toTime i r rest acc ht).2.2]
    | some t =>
      rw [FilterByDates.loop_cons_some field m toTime i r rest acc t ht,
        FilterByDates.loop_cons_some field m' toTime i r rest acc t ht, h,
        ih (i + 1) acc, ih (i + 1) (acc ++ [r])]

theorem keepsRecord_eq_true_iff (field : String) (dates : List Time)
    (toTime : Option (Callback Time)) (r : Record) :
    keepsRecord field dates toTime r = true ↔
      ∃ t, fieldTime field toTime r = some t ∧
        ∃ d, d ∈ dates ∧ t.UTC.Truncate (24 * Hour) = d.Truncate (24 * Hour) := by
  unfold keepsRecord
  cases ht : fieldTime field toTime r with
  | none => simp
  | some t =>
    simp only [decide_eq_true_eq, List.mem_map, Option.some.injEq, exists_eq_left']
    constructor
    · rintro ⟨d, hd, he⟩
      exact ⟨d, hd, he.symm⟩
    · rintro ⟨d, hd, he⟩
      exact ⟨d, hd, he.symm⟩

theorem fieldTime_eq_none_iff (field : String) (toTime : Option (Callback Time))
    (r : Record) (v : Value) (hv : readField "Interface" r field = Except.ok v) :
    fieldTime field toTime r = none ↔
      (∃ f, toTime = some f ∧ ∃ e, f v = Except.error e) ∨
        (toTime = none ∧ ∀ t, v ≠ Value.time t) := by
  unfold fieldTime
  rw [hv]
  cases toTime with
  | some f =>
    cases hf : f v with
    | error e => simp [hf]
    | ok t => simp [hf]
  | none =>
    cases v <;> simp

/-! ## Filtering by dates: the claims -/

/-- C13, as stated, fails: a record whose field `ts` exists and holds a timestamp, but
is unexported, makes `FilterByDates` panic in `Interface()`, with or without a
`toTime`: the call neither succeeds nor returns an error, although `S` is not
empty and no conversion fails. An element that is not a struct value (a pointer
to a struct, say) makes it panic in `FieldByName`. -/
theorem FilterByDates_unexported_field_panics :
    FieldByName unexportedTimeRecord "ts" =
      some (Value.time { nsec := 63839664000000000000 + 8 * 3600000000000,
                         mono := none, loc := none }) ∧
    FilterByDates (Data.slice [unexportedTimeRecord]) "ts" [jan1] none =
      Result.panic "reflect.Value.Interface: value obtained using unexported field" ∧
    FilterByDates (Data.slice [unexportedTimeRecord]) "ts" [jan1]
        (some (fun _ => Except.ok jan1)) =
      Result.panic "reflect.Value.Interface: value obtained using unexported field" ∧
    FilterByDates (Data.slice [Record.other]) "Ts" [jan1] none =
      Result.panic
        "reflect: call of reflect.Value.FieldByName on a value that is not a struct" := by
  refine ⟨by decide, by decide, ?_, by decide⟩
  simp [FilterByDates, FilterByDates.loop, readField, unexportedTimeRecord, Record.isStruct,
    FieldByName, fieldExported, Record.field?]

/-- C13, amended: for a slice `S` of struct values that all have the field `f`, the
field being exported, `FilterByDates` returns an error (which carries no result)
exactly when `S` is empty, or `toTime` is supplied and returns an error for some
element of `S`, or `toTime` is omitted and the field value of some element of `S`
is not a timestamp; in every other case it succeeds, and when it succeeds with an
empty `D` the result is the empty sequence. -/
theorem FilterByDates_error_iff (S : List Record) (f : String) (D : List Time)
    (toTime : Option (Callback Time))
    (hfield : ∀ r, r ∈ S → FieldByName r f ≠ none)
    (hexp : ∀ r, r ∈ S → fieldExported r f = true) :
    ((FilterByDates (Data.slice S) f D toTime).isErr = true ↔
      (S = [] ∨
        (∃ tt, toTime = some tt ∧
          ∃ r, r ∈ S ∧ ∃ v e, FieldByName r f = some v ∧ tt v = Except.error e) ∨
        (toTime = none ∧
          ∃ r, r ∈ S ∧ ∃ v, FieldByName r f = some v ∧ ∀ t, v ≠ Value.time t))) ∧
    ((FilterByDates (Data.slice S) f D toTime).isErr = false →
      ∃ out, FilterByDates (Data.slice S) f D toTime = Result.ok out) ∧
    (D = [] → (FilterByDates (Data.slice S) f D toTime).isErr = false →
      FilterByDates (Data.slice S) f D toTime = Result.ok []) := by
  have hread : ∀ r, r ∈ S → ∃ v, readField "Interface" r f = Except.ok v := by
    intro r hr
    obtain ⟨v, hv, -⟩ := readField_of_exported "Interface" r f (hfield r hr) (hexp r hr)
    exact ⟨v, hv⟩
  have hreadv : ∀ r, r ∈ S → ∀ v, FieldByName r f = some v →
      readField "Interface" r f = Except.ok v := by
    intro r hr v hv
    exact (readField_eq_ok_iff "Interface" r f v).mpr
      ⟨FieldByName_isStruct r f (hfield r hr), hv, hexp r hr⟩
  have hbad_iff : (∃ r, r ∈ S ∧ fieldTime f toTime r = none) ↔
      ((∃ tt, toTime = some tt ∧
          ∃ r, r ∈ S ∧ ∃ v e, FieldByName r f = some v ∧ tt v = Except.error e) ∨
        (toTime = none ∧
          ∃ r, r ∈ S ∧ ∃ v, FieldByName r f = some v ∧ ∀ t, v ≠ Value.time t)) := by
    constructor
    · rintro ⟨r, hr, hn⟩
      obtain ⟨v, hv⟩ := Option.ne_none_iff_exists'.mp (hfield r hr)
      rcases (fieldTime_eq_none_iff f toTime r v (hreadv r hr v hv)).mp hn with
        ⟨tt, htt, e, he⟩ | ⟨hnone, hv'⟩
      · exact Or.inl ⟨tt, htt, r, hr, v, e, hv, he⟩
      · exact Or.inr ⟨hnone, r, hr, v, hv, hv'⟩
    · rintro (⟨tt, htt, r, hr, v, e, hv, he⟩ | ⟨hnone, r, hr, v, hv, hv'⟩)
      · exact ⟨r, hr, (fieldTime_eq_none_iff f toTime r v (hreadv r hr v hv)).mpr
          (Or.inl ⟨tt, htt, e, he⟩)⟩
      · exact ⟨r, hr, (fieldTime_eq_none_iff f toTime r v (hreadv r hr v hv)).mpr
          (Or.inr ⟨hnone, hv'⟩)⟩
  by_cases hS : S = []
  · subst hS
    simp [FilterByDates, Result.isErr]
  have hlen : S.length ≠ 0 := by simpa using hS
  have hrun : FilterByDates (Data.slice S) f D toTime =
      FilterByDates.loop f (GetUniqueDatesMap D) toTime 0 S [] := by
    simp [FilterByDates, hlen]
  rw [hrun]
  by_cases hbad : ∃ r, r ∈ S ∧ fieldTime f toTime r = none
  · have herr := (FilterByDates.loop_not_ok f (GetUniqueDatesMap D) toTime S 0 [] hbad).2 hread
    refine ⟨⟨fun _ => Or.inr (hbad_iff.mp hbad), fun _ => herr⟩, ?_, ?_⟩
    · intro h
      rw [herr] at h
      cases h
    · intro _ h
      rw [herr] at h
      cases h
  · have hall : ∀ r, r ∈ S → ∃ t, fieldTime f toTime r = some t := by
      intro r hr
      cases ht : fieldTime f toTime r with
      | none => exact absurd ⟨r, hr, ht⟩ hbad
      | some t => exact ⟨t, rfl⟩
    have hok := FilterByDates.loop_eq_ok f D toTime S 0 [] hall
    rw [hok]
    refine ⟨⟨fun h => ?_, fun h => ?_⟩, fun _ => ⟨_, rfl⟩, ?_⟩
    · simp [Result.isErr] at h
    · rcases h with h | h
      · exact absurd h hS
      · exact absurd (hbad_iff.mpr h) hbad
    · intro hD _
      subst hD
      have : S.filter (keepsRecord f [] toTime) = [] := by
        rw [List.filter_eq_nil_iff]
        intro r _
        simp [keepsRecord_eq_true_iff]
      simp [this]

/-- C13, amended, at the records `[{Name:"a",Age:1},{Name:"b",Age:2}]` with field
`"Name"` and no `toTime`: the field values are strings, so the call returns an
error. -/
theorem FilterByDates_error_iff_witness :
    (∀ r, r ∈ exampleRecords → FieldByName r "Name" ≠ none) ∧
    (∀ r, r ∈ exampleRecords → fieldExported r "Name" = true) ∧
    (FilterByDates (Data.slice exampleRecords) "Name" [jan1] none).isErr = true ∧
    ((FilterByDates (Data.slice exampleRecords) "Name" [jan1] none).isErr = true ↔
      (exampleRecords = [] ∨
        (∃ tt, (none : Option (Callback Time)) = some tt ∧
          ∃ r, r ∈ exampleRecords ∧ ∃ v e,
            FieldByName r "Name" = some v ∧ tt v = Except.error e) ∨
        ((none : Option (Callback Time)) = none ∧
          ∃ r, r ∈ exampleRecords ∧ ∃ v,
            FieldByName r "Name" = some v ∧ ∀ t, v ≠ Value.time t))) ∧
    ((FilterByDates (Data.slice exampleRecords) "Name" [jan1] none).isErr = false →
      ∃ out, FilterByDates (Data.slice exampleRecords) "Name" [jan1] none = Result.ok out) ∧
    (([jan1] : List Time) = [] →
      (FilterByDates (Data.slice exampleRecords) "Name" [jan1] none).isErr = false →
      FilterByDates (Data.slice exampleRecords) "Name" [jan1] none = Result.ok []) :=
  ⟨by decide, by decide, by decide,
    FilterByDates_error_iff exampleRecords "Name" [jan1] none (by decide) (by decide)⟩

/-! ## Days and locations -/

theorem dayOf_eq (t : Time) :
    dayOf t = { nsec := t.nsec - t.nsec % 86400000000000, mono := none, loc := t.loc } := by
  simp [dayOf, Time.Truncate, Time.stripMono, Hour]

theorem dayOf_eq_iff (t1 t2 : Time) :
    dayOf t1 = dayOf t2 ↔ utcDay t1 = utcDay t2 ∧ t1.loc = t2.loc := by
  rw [dayOf_eq, dayOf_eq]
  have hH : (24 : Int) * Hour = 86400000000000 := by simp [Hour]
  simp only [utcDay, hH, Time.mk.injEq, true_and]
  constructor
  · rintro ⟨h, hl⟩
    exact ⟨by omega, hl⟩
  · rintro ⟨h, hl⟩
    exact ⟨by omega, hl⟩

theorem utcDay_UTC (t : Time) : utcDay t.UTC = utcDay t := rfl

theorem GetUniqueDates_pair (t1 t2 : Time) :
    (GetUniqueDates [t1, t2]).length = 1 ↔ dayOf t1 = dayOf t2 := by
  rw [GetUniqueDates_eq]
  by_cases h : dayOf t2 = dayOf t1
  · simp [addNew, h]
  · have h' : ¬ dayOf t1 = dayOf t2 := fun e => h e.symm
    simp [addNew, h, h']

/-- A successful call of `FilterByDates` returns the records it keeps, in order. -/
theorem FilterByDates.ok_filter (S : List Record) (f : String) (D : List Time)
    (toTime : Option (Callback Time)) (out : List Record)
    (hok : FilterByDates (Data.slice S) f D toTime = Result.ok out) :
    out = S.filter (keepsRecord f D toTime) := by
  have hS : S ≠ [] := by
    rintro rfl
    simp [FilterByDates] at hok
  have hlen : S.length ≠ 0 := by simpa using hS
  simp only [FilterByDates, hlen, if_false] at hok
  have hall : ∀ r, r ∈ S → ∃ t, fieldTime f toTime r = some t := by
    by_contra hnot
    have hbad : ∃ r, r ∈ S ∧ fieldTime f toTime r = none := by
      by_contra hno
      apply hnot
      intro r hr
      cases ht : fieldTime f toTime r with
      | none => exact absurd ⟨r, hr, ht⟩ hno
      | some t => exact ⟨t, rfl⟩
    have := (FilterByDates.loop_not_ok f (GetUniqueDatesMap D) toTime S 0 [] hbad).1
    rw [hok] at this
    simp [Result.isOk] at this
  rw [FilterByDates.loop_eq_ok f D toTime S 0 [] hall] at hok
  simpa using hok.symm

/-- C14 fails on the code: two timestamps of the same instant, hence of the same UTC
day, that carry different locations give two elements in `GetUniqueDates` and an
empty `DateSetUnion`; and a date of 2024-01-01 given to `FilterByDates` in a
non-UTC location does not match a record timestamped on the same UTC day. The
keys are built with `Truncate` alone, which keeps the location, while
`FilterByDates` looks records up under `t.UTC().Truncate(24*time.Hour)`. -/
theorem date_keys_depend_on_location :
    utcDay { nsec := 63839664000000000000 + 8 * 3600000000000, mono := none, loc := none }
      = utcDay jan1MorningZoned ∧
    (GetUniqueDates
      [{ nsec := 63839664000000000000 + 8 * 3600000000000, mono := none, loc := none },
       jan1MorningZoned]).length = 2 ∧
    DateSetUnion
      [{ nsec := 63839664000000000000 + 8 * 3600000000000, mono := none, loc := none }]
      [jan1MorningZoned] = [] ∧
    utcDay jan1Zoned
      = utcDay { nsec := 63839664000000000000 + 8 * 3600000000000, mono := none,
                 loc := none } ∧
    FilterByDates (Data.slice exampleTimedRecords) "Ts" [jan1Zoned] none = Result.ok [] := by
  refine ⟨by decide, by decide, by decide, by decide, by decide⟩

/-- What the code computes: day-truncated `time.Time` values are equal, as Go's `==`
compares them, exactly when the UTC calendar days are equal and the locations are
the same; `GetUniqueDates [t1, t2]` has one element exactly in that case; and when
all dates given to `FilterByDates` are in UTC, a successful call keeps exactly the
records whose timestamp, whatever its location, lies on the UTC day of one of the
dates. -/
theorem truncated_keys_equal_iff (S : List Record) (f : String) (D : List Time)
    (toTime : Option (Callback Time)) (out : List Record)
    (hutc : ∀ d, d ∈ D → d.loc = none)
    (hok : FilterByDates (Data.slice S) f D toTime = Result.ok out) :
    (∀ t1 t2 : Time, t1.Truncate (24 * Hour) = t2.Truncate (24 * Hour) ↔
      utcDay t1 = utcDay t2 ∧ t1.loc = t2.loc) ∧
    (∀ t1 t2 : Time, (GetUniqueDates [t1, t2]).length = 1 ↔
      utcDay t1 = utcDay t2 ∧ t1.loc = t2.loc) ∧
    (∀ r, r ∈ out ↔ r ∈ S ∧ ∃ t, fieldTime f toTime r = some t ∧
      ∃ d, d ∈ D ∧ utcDay t = utcDay d) := by
  refine ⟨dayOf_eq_iff, fun t1 t2 => (GetUniqueDates_pair t1 t2).trans (dayOf_eq_iff t1 t2), ?_⟩
  intro r
  rw [FilterByDates.ok_filter S f D toTime out hok, List.mem_filter, keepsRecord_eq_true_iff]
  have hday : ∀ t d, d ∈ D →
      (t.UTC.Truncate (24 * Hour) = d.Truncate (24 * Hour) ↔ utcDay t = utcDay d) := by
    intro t d hd
    have := dayOf_eq_iff t.UTC d
    rw [utcDay_UTC] at this
    have hl : t.UTC.loc = d.loc := by
      rw [hutc d hd]
      rfl
    exact this.trans ⟨fun h => h.1, fun h => ⟨h, hl⟩⟩
  constructor
  · rintro ⟨hr, t, ht, d, hd, he⟩
    exact ⟨hr, t, ht, d, hd, (hday t d hd).mp he⟩
  · rintro ⟨hr, t, ht, d, hd, he⟩
    exact ⟨hr, t, ht, d, hd, (hday t d hd).mpr he⟩

/-! ## Schema comparison -/

theorem FieldSchema.eq_iff (f1 f2 : FieldSchema) :
    f1 = f2 ↔ ¬ (f1.Name ≠ f2.Name ∨ f1.FieldType ≠ f2.FieldType) := by
  cases f1
  cases f2
  simp

/-- The loop of `SchemasMatch` answers `true` exactly when the remaining elements of
`s1` are an initial segment of what is left of `s2`. -/
theorem SchemasMatch.loop_eq_true_iff (s2 : Schema) (rest : List FieldSchema) (i : Nat) :
    SchemasMatch.loop s2 i rest = Except.ok true ↔ rest <+: s2.drop i := by
  induction rest generalizing i with
  | nil => simp [SchemasMatch.loop]
  | cons f1 rest ih =>
    cases h : s2[i]? with
    | none =>
      have hlen : s2.length ≤ i := List.getElem?_eq_none_iff.mp h
      simp [SchemasMatch.loop, h, List.drop_eq_nil_of_le hlen]
    | some f2 =>
      obtain ⟨hi, hget⟩ := List.getElem?_eq_some_iff.mp h
      rw [List.drop_eq_getElem_cons hi, hget, List.cons_prefix_cons]
      by_cases heq : f1 = f2
      · subst heq
        simp [SchemasMatch.loop, h, ih]
      · have hc : f1.Name ≠ f2.Name ∨ f1.FieldType ≠ f2.FieldType := by
          by_contra hn
          exact heq ((FieldSchema.eq_iff f1 f2).mpr hn)
        simp [SchemasMatch.loop, h, if_pos hc, heq]

/-- What the code computes: `SchemasMatch s1 s2` is `true` exactly when `s1` is an
initial segment of `s2`; for schemas of equal length that is field-by-field
equality. -/
theorem SchemasMatch_eq_true_iff (s1 s2 : Schema) :
    SchemasMatch s1 s2 = Except.ok true ↔ s1 <+: s2 := by
  simpa [SchemasMatch] using SchemasMatch.loop_eq_true_iff s2 s1 0

/-- C16 fails on the code: `SchemasMatch` never compares the lengths. A schema that
is a proper prefix of the other one is reported as matching (the empty schema
matches every schema), and a first schema longer than the second one makes the
loop index the second one out of range. -/
theorem SchemasMatch_ignores_length :
    SchemasMatch [] [{ Name := "id", FieldType := "INTEGER" }] = Except.ok true ∧
    SchemasMatch [{ Name := "id", FieldType := "INTEGER" }]
        [{ Name := "id", FieldType := "INTEGER" }, { Name := "name", FieldType := "STRING" }]
      = Except.ok true ∧
    SchemasMatch [{ Name := "id", FieldType := "INTEGER" }] []
      = Except.error "runtime error: index out of range" ∧
    SchemasMatch
        [{ Name := "id", FieldType := "INTEGER" }, { Name := "name", FieldType := "STRING" }]
        [{ Name := "id", FieldType := "INTEGER" }]
      = Except.error "runtime error: index out of range" := by
  refine ⟨?_, ?_, ?_, ?_⟩ <;> simp [SchemasMatch, SchemasMatch.loop]

/-! ## The date map is used as a set -/

/-- C17: for every sequence `T` of timestamps, the keys of `GetUniqueDatesMap T` are
exactly the day-truncated values of `T` and every key is mapped to `1`, however
often its day occurs in `T`. Consequently `DateSetUnion`, `DateSetDiff` and
`FilterByDates` depend on their second list only through its set of days: two
lists `B` and `B'` with the same days give the same results. -/
theorem GetUniqueDatesMap_keys_to_one (T A B B' : List Time) (data : Data Record)
    (f : String) (toTime : Option (Callback Time))
    (hsame : ∀ d, d ∈ B.map (fun t => t.Truncate (24 * Hour)) ↔
      d ∈ B'.map (fun t => t.Truncate (24 * Hour))) :
    (∀ d, d ∈ (GetUniqueDatesMap T).keys ↔ d ∈ T.map (fun t => t.Truncate (24 * Hour))) ∧
    (∀ d, d ∈ (GetUniqueDatesMap T).keys → (GetUniqueDatesMap T).get? d = some 1) ∧
    (∀ d, d ∉ (GetUniqueDatesMap T).keys → (GetUniqueDatesMap T).get? d = none) ∧
    DateSetUnion A B = DateSetUnion A B' ∧
    DateSetDiff A B = DateSetDiff A B' ∧
    FilterByDates data f B toTime = FilterByDates data f B' toTime := by
  have hkeys : ∀ d, d ∈ (GetUniqueDatesMap T).keys ↔ d ∈ T.map dayOf := by
    intro d
    rw [GoMap.mem_keys_iff, GetUniqueDatesMap_get?]
    by_cases h : d ∈ T.map dayOf
    · simp [h]
    · simp [h]
  have hdec : (fun d => decide (d ∈ B.map dayOf)) = (fun d => decide (d ∈ B'.map dayOf)) := by
    funext d
    exact decide_eq_decide.mpr (hsame d)
  have hdec' : (fun d => decide (d ∉ B.map dayOf)) = (fun d => decide (d ∉ B'.map dayOf)) := by
    funext d
    exact decide_eq_decide.mpr (not_congr (hsame d))
  refine ⟨hkeys, ?_, ?_, ?_, ?_, ?_⟩
  · intro d hd
    rw [GetUniqueDatesMap_get?, if_pos ((hkeys d).mp hd)]
  · intro d hd
    rw [GetUniqueDatesMap_get?, if_neg (fun h => hd ((hkeys d).mpr h))]
  · rw [DateSetUnion_eq, DateSetUnion_eq, hdec]
  · rw [DateSetDiff_eq, DateSetDiff_eq, hdec']
  · cases data with
    | other => rfl
    | slice vals =>
      by_cases hlen : vals.length = 0
      · simp [FilterByDates, hlen]
      · simp only [FilterByDates, hlen, if_false]
        apply FilterByDates.loop_congr
        intro k
        rw [GetUniqueDatesMap_isSome, GetUniqueDatesMap_isSome]
        exact decide_eq_decide.mpr (hsame k)

theorem datesWithRepeats_days (d : Time) :
    d ∈ datesWithRepeats.map (fun t => t.Truncate (24 * Hour)) ↔
      d ∈ datesOnce.map (fun t => t.Truncate (24 * Hour)) := by
  have h1 : datesWithRepeats.map (fun t => t.Truncate (24 * Hour)) = [jan1, jan1, jan2] := by
    decide
  have h2 : datesOnce.map (fun t => t.Truncate (24 * Hour)) = [jan2, jan1] := by
    decide
  rw [h1, h2]
  simp only [List.mem_cons, List.mem_singleton, List.not_mem_nil, or_false]
  tauto

/-- C17 at three timestamps of 2024-01-01 and 2024-01-02 against one timestamp for
each of the two days. -/
theorem GetUniqueDatesMap_keys_to_one_witness :
    (∀ d, d ∈ datesWithRepeats.map (fun t => t.Truncate (24 * Hour)) ↔
      d ∈ datesOnce.map (fun t => t.Truncate (24 * Hour))) ∧
    GetUniqueDatesMap datesWithRepeats = [(jan1, 1), (jan2, 1)] ∧
    (∀ d, d ∈ (GetUniqueDatesMap datesWithRepeats).keys ↔
      d ∈ datesWithRepeats.map (fun t => t.Truncate (24 * Hour))) ∧
    (∀ d, d ∈ (GetUniqueDatesMap datesWithRepeats).keys →
      (GetUniqueDatesMap datesWithRepeats).get? d = some 1) ∧
    (∀ d, d ∉ (GetUniqueDatesMap datesWithRepeats).keys →
      (GetUniqueDatesMap datesWithRepeats).get? d = none) ∧
    DateSetUnion [jan1] datesWithRepeats = DateSetUnion [jan1] datesOnce ∧
    DateSetDiff [jan1] datesWithRepeats = DateSetDiff [jan1] datesOnce ∧
    FilterByDates (Data.slice exampleTimedRecords) "Ts" datesWithRepeats none =
      FilterByDates (Data.slice exampleTimedRecords) "Ts" datesOnce none :=
  ⟨datesWithRepeats_days, by decide,
    GetUniqueDatesMap_keys_to_one datesWithRepeats [jan1] datesWithRepeats datesOnce
      (Data.slice exampleTimedRecords) "Ts" none datesWithRepeats_days⟩

end BooTools
